import Mathlib

/-!
Boot loader for MKL46Z256VLL4: S-record validation, parsing, queue and receive loop.

Shallow embedding of `Sources/SREC.c`, `Sources/QUEUE.c` and the protocol part of
`Sources/main.c`.

Conventions of the embedding:
* a C `char` / `uint8_t` is a `Nat` (its value 0..255); 8-bit arithmetic is written with an
  explicit `% 256`, the 32-bit address with `% 4294967296`;
* a `char *` is a function `Nat → Nat` from index to character code;
* a C loop whose 8-bit counter can wrap is a recursion on a fuel argument and returns
  `none` when the fuel is used up.
-/

namespace Bootloader

/-! ## SREC.h / QUEUE.h constants -/

/-- Constant `MAX_LINE_LENGTH_RECORD` of SREC.h. -/
def MAX_LINE_LENGTH_RECORD : Nat := 80

/-- Constant `NUMBER_OF_QUEUES` of QUEUE.h. -/
def NUMBER_OF_QUEUES : Nat := 4

/-! ## SREC.c -/

/-- Table `hex_lookup[256]`: the designated entries of the initialiser (indexes 48..57 are
`'0'..'9'`, 65..70 are `'A'..'F'`, 97..102 are `'a'..'f'`), every other entry 0. -/
def hex_lookup : Nat → Nat
  | 48 => 0 | 49 => 1 | 50 => 2 | 51 => 3 | 52 => 4
  | 53 => 5 | 54 => 6 | 55 => 7 | 56 => 8 | 57 => 9
  | 65 => 10 | 66 => 11 | 67 => 12 | 68 => 13 | 69 => 14 | 70 => 15
  | 97 => 10 | 98 => 11 | 99 => 12 | 100 => 13 | 101 => 14 | 102 => 15
  | _ => 0

/-- Function `hexCharToByte`: the `switch` over the three digit ranges, result stored in a
`uint8_t`. -/
def hexCharToByte (c : Nat) : Nat :=
  if '0'.toNat ≤ c ∧ c ≤ '9'.toNat then (c - '0'.toNat) % 256
  else if 'A'.toNat ≤ c ∧ c ≤ 'F'.toNat then (c - 'A'.toNat + 10) % 256
  else if 'a'.toNat ≤ c ∧ c ≤ 'f'.toNat then (c - 'a'.toNat + 10) % 256
  else 0

/-- Function `hex_chars_to_byte`: `(hex_lookup[(unsigned char)high] << 4) |
hex_lookup[(unsigned char)low]`, returned as `uint8_t`. -/
def hex_chars_to_byte (high low : Nat) : Nat :=
  ((hex_lookup (high % 256) <<< 4) ||| hex_lookup (low % 256)) % 256

/-- The summing loop `for (i = 2; i <= loop; i += 2)` of `Check_Line_Record`, entered with
counter `i` and accumulator `sum` (both 8-bit); `none` when the fuel runs out. -/
def sum_loop (srec_line : Nat → Nat) (loop : Nat) : Nat → Nat → Nat → Option Nat
  | 0, _, _ => none
  | fuel + 1, i, sum =>
    if i ≤ loop then
      sum_loop srec_line loop fuel ((i + 2) % 256)
        ((sum + hex_chars_to_byte (srec_line i) (srec_line (i + 1))) % 256)
    else some sum

/-- Function `Check_Line_Record` with the summing loop run on `fuel`. -/
def Check_Line_Record_fuel (fuel : Nat) (srec_line : Nat → Nat) : Option Nat :=
  if srec_line 0 = 'S'.toNat then
    let byteCount_in_record := hex_chars_to_byte (srec_line 2) (srec_line 3)
    let loop := (byteCount_in_record * 2) % 256
    match sum_loop srec_line loop fuel 2 0 with
    | none => none
    | some sum =>
      let checksum_cal := 255 - sum % 256
      let checksum_in_record := hex_chars_to_byte (srec_line (loop + 2)) (srec_line (loop + 3))
      if checksum_cal = checksum_in_record then some byteCount_in_record else some 0
  else some 0

/-- Function `Check_Line_Record`. The loop counter is 8-bit and even, so a run that ends takes
at most 127 iterations: 128 units of fuel are enough exactly when the C loop ends
(`Check_Line_Record_fuel_stable`). -/
def Check_Line_Record (srec_line : Nat → Nat) : Option Nat :=
  Check_Line_Record_fuel 128 srec_line

/-- A line given by its characters; the index function reads 0 (NUL) past the end. -/
def lineOf (s : String) : Nat → Nat :=
  fun i => ((s.toList.map Char.toNat).getD i 0)

/-- Sum of the `m` bytes decoded from the pairs at indexes `2k+2, 2k+3`, ..., `2(k+m-1)+2,
2(k+m-1)+3` of the line. -/
def pair_sum (srec_line : Nat → Nat) (k m : Nat) : Nat :=
  ((List.range m).map
    (fun j => hex_chars_to_byte (srec_line (2 * (k + j) + 2)) (srec_line (2 * (k + j) + 3)))).sum

/-- Type `Record` of SREC.h; each `uint8_t dataN[4]` is the list of its four bytes. -/
structure Record where
  address : Nat
  data1 : List Nat
  data2 : List Nat
  data3 : List Nat
  data4 : List Nat
  byteCount_of_data : Nat
  priority : Nat
deriving DecidableEq, Repr

/-- Body of the parsing loop of `record_parser` for counter value `i`: the group selected by
`i` is filled from its eight characters, any other `i` changes nothing. -/
def parse_body (record : Nat → Nat) (i : Nat) (record_struct : Record) : Record :=
  if 0 = i then
    { record_struct with
      data1 := [hex_chars_to_byte (record 8) (record 9),
                hex_chars_to_byte (record 10) (record 11),
                hex_chars_to_byte (record 12) (record 13),
                hex_chars_to_byte (record 14) (record 15)] }
  else if 4 = i then
    { record_struct with
      data2 := [hex_chars_to_byte (record 16) (record 17),
                hex_chars_to_byte (record 18) (record 19),
                hex_chars_to_byte (record 20) (record 21),
                hex_chars_to_byte (record 22) (record 23)] }
  else if 8 = i then
    { record_struct with
      data3 := [hex_chars_to_byte (record 24) (record 25),
                hex_chars_to_byte (record 26) (record 27),
                hex_chars_to_byte (record 28) (record 29),
                hex_chars_to_byte (record 30) (record 31)] }
  else if 12 = i then
    { record_struct with
      data4 := [hex_chars_to_byte (record 32) (record 33),
                hex_chars_to_byte (record 34) (record 35),
                hex_chars_to_byte (record 36) (record 37),
                hex_chars_to_byte (record 38) (record 39)] }
  else record_struct

/-- The parsing loop `for (i = 0; i < byteCount_of_data; i += 4)` of `record_parser`, entered
with the 8-bit counter `i`; `none` when the fuel runs out. -/
def parse_loop (record : Nat → Nat) (byteCount_of_data : Nat) :
    Nat → Nat → Record → Option Record
  | 0, _, _ => none
  | fuel + 1, i, record_struct =>
    if i < byteCount_of_data then
      parse_loop record byteCount_of_data fuel ((i + 4) % 256) (parse_body record i record_struct)
    else some record_struct

/-- Function `record_parser` with the parsing loop run on `fuel`: the address is stored first,
`byteCount_of_data` is `byteCount_in_record * 2 - 6` truncated to 8 bits. -/
def record_parser_fuel (fuel : Nat) (record : Nat → Nat) (record_struct : Record)
    (byteCount_in_record : Nat) : Option Record :=
  let record_struct1 := { record_struct with
    address := ((hexCharToByte (record 4) <<< 12) ||| (hexCharToByte (record 5) <<< 8) |||
                (hexCharToByte (record 6) <<< 4) ||| hexCharToByte (record 7)) % 4294967296 }
  let byteCount_of_data := (byteCount_in_record * 2 + 256 - 6) % 256
  parse_loop record byteCount_of_data fuel 0 record_struct1

/-- Function `record_parser`. The 8-bit counter steps by 4 from 0, so a run that ends takes at
most 63 iterations and 64 units of fuel are enough. -/
def recordParser (record : Nat → Nat) (record_struct : Record) (byteCount_in_record : Nat) :
    Option Record :=
  record_parser_fuel 64 record record_struct byteCount_in_record

/-- A record structure left by an earlier record: group `k` holds four bytes `k`. -/
def previous_record : Record :=
  { address := 0, data1 := [1, 1, 1, 1], data2 := [2, 2, 2, 2], data3 := [3, 3, 3, 3],
    data4 := [4, 4, 4, 4], byteCount_of_data := 0, priority := 0 }

/-! ## Lines with one flipped checksum bit -/

/-- Character `c` with bit `b` flipped. -/
def flip_bit (c b : Nat) : Nat := c ^^^ (2 ^ b)

/-- The line with bit `b` of the character at index `pos` flipped. -/
def corrupt (srec_line : Nat → Nat) (pos b : Nat) : Nat → Nat :=
  Function.update srec_line pos (flip_bit (srec_line pos) b)

/-- A hexadecimal digit character, either case. -/
def is_hex_digit (c : Nat) : Prop :=
  (48 ≤ c ∧ c ≤ 57) ∨ (65 ≤ c ∧ c ≤ 70) ∨ (97 ≤ c ∧ c ≤ 102)

instance (c : Nat) : Decidable (is_hex_digit c) := by
  unfold is_hex_digit; infer_instance

/-- A valid S-record line with declared byte count `n`, 3 ≤ n ≤ 38: marker `S`, a decimal
record-type digit, hex digits in the count, address, data and checksum fields (indexes
2..2n+3), and the checksum pair equal to the complement of the byte sum. -/
def valid_record (srec_line : Nat → Nat) (n : Nat) : Prop :=
  srec_line 0 = 'S'.toNat ∧ ('0'.toNat ≤ srec_line 1 ∧ srec_line 1 ≤ '9'.toNat) ∧
  (∀ i < 2 * n + 4, 2 ≤ i → is_hex_digit (srec_line i)) ∧
  hex_chars_to_byte (srec_line 2) (srec_line 3) = n ∧ 3 ≤ n ∧ n ≤ 38 ∧
  hex_chars_to_byte (srec_line (2 * n + 2)) (srec_line (2 * n + 3))
    = 255 - pair_sum srec_line 0 n % 256

instance (srec_line : Nat → Nat) (n : Nat) : Decidable (valid_record srec_line n) := by
  unfold valid_record; infer_instance

/-! ## QUEUE.c -/

/-- Type `Queue` of QUEUE.h: the character buffer seen through the pointer `record`, and the
flag `state`. -/
structure Queue where
  record : Nat → Nat
  state : Nat

/-- The scan `for (i = 0; i < NUMBER_OF_QUEUES; i++)` of `find_queue_empty`, entered with
counter `i` and current `result`. The counter only grows, so from 0 the exit test is reached
within five calls. -/
def find_queue_empty_loop (queue : Nat → Queue) : Nat → Nat → Nat → Nat
  | 0, _, result => result
  | fuel + 1, i, result =>
    if i < NUMBER_OF_QUEUES then
      if (queue i).state = 0 then
        find_queue_empty_loop queue fuel ((NUMBER_OF_QUEUES + 1) % 256) i
      else find_queue_empty_loop queue fuel ((i + 1) % 256) result
    else result

/-- Function `find_queue_empty`. -/
def find_queue_empty (queue : Nat → Queue) : Nat :=
  find_queue_empty_loop queue 5 0 255

/-- Function `initialize_state`. -/
def initialize_state (queue : Nat → Queue) : Nat → Queue :=
  (List.range NUMBER_OF_QUEUES).foldl
    (fun q i => Function.update q i { q i with state := 0 }) queue

/-! ## main.c: the interrupt handler -/

/-- File-scope variables of main.c. The array `queue` is indexed by the 8-bit value the code
indexes it with: 0..3 are its four elements, any other index stands for the memory such an
element expression designates outside the array. -/
structure Shared where
  buffer_index : Nat
  received_data : Nat
  queue : Nat → Queue
  index_empty : Nat

/-- State of the file-scope variables at reset: zero-initialised static storage. -/
def reset_state : Shared :=
  { buffer_index := 0, received_data := 0,
    queue := fun _ => { record := fun _ => 0, state := 0 }, index_empty := 0 }

/-- Function `Implement_UART_0_IRQHandler`; `rdrf` is the value read from the receive-full flag
and `data` the value read from the receive data register. -/
def Implement_UART_0_IRQHandler (rdrf data : Nat) (s : Shared) : Shared :=
  if 1 = rdrf then
    let received_data := data % 256
    if received_data = '\n'.toNat then
      let queue1 := Function.update s.queue s.index_empty
        { s.queue s.index_empty with
          record := Function.update (s.queue s.index_empty).record s.buffer_index 0 }
      let queue2 := Function.update queue1 s.index_empty { queue1 s.index_empty with state := 1 }
      { buffer_index := 0, received_data := received_data, queue := queue2,
        index_empty := find_queue_empty queue2 }
    else
      let queue1 := Function.update s.queue s.index_empty
        { s.queue s.index_empty with
          record := Function.update (s.queue s.index_empty).record s.buffer_index received_data }
      let buffer_index := (s.buffer_index + 1) % 256
      { buffer_index := if MAX_LINE_LENGTH_RECORD - 1 ≤ buffer_index then 0 else buffer_index,
        received_data := received_data, queue := queue1, index_empty := s.index_empty }
  else s

/-- The handler run once per received byte, the receive-full flag set each time. -/
def feed (s : Shared) (bytes : List Nat) : Shared :=
  bytes.foldl (fun s b => Implement_UART_0_IRQHandler 1 b s) s

/-- Character codes of a text sent over the serial line. -/
def bytes_of (s : String) : List Nat := s.toList.map Char.toNat

/-! ## main.c: the receive loop -/

/-- Constant `APPLICATION_ADDRESS` of main.c and BOOT.h. -/
def APPLICATION_ADDRESS : Nat := 0x0000A000

/-- Constant `NUMBER_OF_SECTORS_TO_DELETE` of main.c. -/
def NUMBER_OF_SECTORS_TO_DELETE : Nat := 50

/-- Constant `NUMBER_OF_BYTES_WRITTEN_DOWN_AT_ONE_TIME` of main.c. -/
def NUMBER_OF_BYTES_WRITTEN_DOWN_AT_ONE_TIME : Nat := 4

/-- Constant `SMALLEST_BYTES_COUNT_NUMBER` of main.c. -/
def SMALLEST_BYTES_COUNT_NUMBER : Nat := 3

/-- Calls `main` makes that are visible outside it, in program order. -/
inductive Event where
  | set_red_led_low
  | send_string (text : String)
  | send_bytes (c : Nat)
  | Erase_Multi_Sector (address sectors : Nat)
  | Check_Line_Record_call (slot : Nat)
  | record_parser_call (slot byte_count : Nat)
  | disable_irq
  | Program_LongWord_8B (address : Nat) (data : List Nat)
  | enable_irq
  | JumpToApplication
deriving DecidableEq, Repr

/-- Where `main` is: in the slot scan, in one of the three endless loops that end it (after a
failed validation, after the end record, around `JumpToApplication`), or inside a library
loop that does not end. -/
inductive Mode where
  | Receiving
  | Failed
  | Completed
  | Application
  | HungInCheck
  | HungInParser
deriving DecidableEq, Repr

/-- State of `main`: its mode, the scan counter `i`, the local `record_struct` (never reset
between records), the file-scope variables and the calls made so far. The locals `j`,
`number_of_4_bytes` and `byte_count` are assigned before each use and are not kept. -/
structure Main where
  mode : Mode
  i : Nat
  record_struct : Record
  shared : Shared
  trace : List Event

/-- One iteration `j` of the loop `for (j = 0; j < number_of_4_bytes; j++)`. -/
def write_body (st : Record × List Event) (j : Nat) : Record × List Event :=
  if j = 0 then
    (st.1, st.2 ++ [Event.disable_irq, Event.Program_LongWord_8B st.1.address st.1.data1,
                    Event.enable_irq])
  else if j = 1 then
    let r := { st.1 with address := (st.1.address + 4) % 4294967296 }
    (r, st.2 ++ [Event.disable_irq, Event.Program_LongWord_8B r.address r.data2,
                 Event.enable_irq])
  else if j = 2 then
    let r := { st.1 with address := (st.1.address + 4) % 4294967296 }
    (r, st.2 ++ [Event.disable_irq, Event.Program_LongWord_8B r.address r.data3,
                 Event.enable_irq])
  else if j = 3 then
    let r := { st.1 with address := (st.1.address + 4) % 4294967296 }
    (r, st.2 ++ [Event.disable_irq, Event.Program_LongWord_8B r.address r.data4,
                 Event.enable_irq])
  else st

/-- The loop `for (j = 0; j < number_of_4_bytes; j++)`; its bound is at most 63. -/
def write_loop (number_of_4_bytes : Nat) (record_struct : Record) (trace : List Event) :
    Record × List Event :=
  (List.range number_of_4_bytes).foldl write_body (record_struct, trace)

/-- The queue with the flag of element `i` set to 0. -/
def clear_state (s : Shared) (i : Nat) : Shared :=
  { s with queue := Function.update s.queue i { s.queue i with state := 0 } }

/-- First half of the body for a full slot `i` (lines 339-399): the data-record branch and
its `else`. -/
def slot_record (m : Main) : Main :=
  if (m.shared.queue m.i).record 1 = '1'.toNat then
    let m1 := { m with trace := m.trace ++ [Event.Check_Line_Record_call m.i] }
    match Check_Line_Record (m.shared.queue m.i).record with
    | none => { m1 with mode := Mode.HungInCheck }
    | some byte_count =>
      if SMALLEST_BYTES_COUNT_NUMBER ≤ byte_count then
        let number_of_4_bytes := byte_count / NUMBER_OF_BYTES_WRITTEN_DOWN_AT_ONE_TIME
        let m2 := { m1 with trace := m1.trace ++ [Event.record_parser_call m.i byte_count] }
        match recordParser (m.shared.queue m.i).record m.record_struct byte_count with
        | none => { m2 with mode := Mode.HungInParser }
        | some record_struct =>
          let w := write_loop number_of_4_bytes record_struct m2.trace
          { m2 with
            record_struct := w.1
            trace := w.2 ++ [Event.send_bytes '.'.toNat]
            shared := clear_state m.shared m.i }
      else
        { m1 with
          trace := m1.trace ++ [Event.send_string ("Update failed\r\n"),
                                Event.send_string ("Please start over from the beginning!\r\n")]
          shared := clear_state m.shared m.i
          mode := Mode.Failed }
  else
    { m with shared := clear_state m.shared m.i }

/-- Second half of the body for a full slot `i` (lines 401-416): the end-record test. -/
def slot_end (m : Main) : Main :=
  if (m.shared.queue m.i).record 1 = '9'.toNat then
    { m with
      trace := m.trace ++ [Event.send_string (".done!\r\n"), Event.send_string ("  \n"),
        Event.send_string ("           +++++++++++++++++++++++++++++\n"),
        Event.send_string ("  \n"),
        Event.send_string
          (" Please press the Reset Button to run the Application. Thanks :)\r\n")]
      mode := Mode.Completed }
  else m

/-- Body of the scan `for (i = 0; i < NUMBER_OF_QUEUES; i++)` for the current `i`. -/
def slot_body (m : Main) : Main :=
  if (m.shared.queue m.i).state = 1 then
    let m1 := slot_record m
    match m1.mode with
    | Mode.Receiving => slot_end m1
    | _ => m1
  else m

/-- One step of `main` in the receive loop: the body for the current `i`, then `i++`, the
endless `while` restarting the scan at 0 when `i` reaches `NUMBER_OF_QUEUES`. In every other
mode `main` stays where it is and calls nothing. -/
def main_step (m : Main) : Main :=
  match m.mode with
  | Mode.Receiving =>
    let m1 := slot_body m
    match m1.mode with
    | Mode.Receiving =>
      { m1 with i := if (m1.i + 1) % 256 < NUMBER_OF_QUEUES then (m1.i + 1) % 256 else 0 }
    | _ => m1
  | _ => m

/-- The state of `main` after `n` steps. -/
def run : Nat → Main → Main
  | 0, m => m
  | n + 1, m => run n (main_step m)

/-- Function `main` from the trigger-pin test (line 320) to the entry of the receive loop or of
the application loop; `pin` is the value read from the switch, `record_struct` the
uninitialised local. -/
def main_start (pin : Nat) (record_struct : Record) (s : Shared) : Main :=
  if pin = 0 then
    { mode := Mode.Receiving, i := 0, record_struct := record_struct,
      shared := { s with queue := initialize_state s.queue },
      trace := [Event.set_red_led_low, Event.send_string (" \n"),
        Event.send_string (" |***************** BOOTLOADER *****************|\r\n"),
        Event.send_string (" Preparing............\r\n"),
        Event.send_string (" Formatting data:"),
        Event.Erase_Multi_Sector APPLICATION_ADDRESS NUMBER_OF_SECTORS_TO_DELETE,
        Event.send_string (".....................done!\r\n"),
        Event.send_string (" \n"),
        Event.send_string (" Please update SREC (file format) now !\r\n"),
        Event.send_string (" Updating your firmware: ")] }
  else
    { mode := Mode.Application, i := 1, record_struct := record_struct, shared := s,
      trace := [Event.JumpToApplication] }

/-- The receive loop entered at slot 0 with nothing called yet. -/
def receive_start (record_struct : Record) (s : Shared) : Main :=
  { mode := Mode.Receiving, i := 0, record_struct := record_struct, shared := s, trace := [] }

/-- The state of `main` at the entry of the receive loop once the line `S1071000DEADBEEFB0`
and its line feed have been received from reset, the record structure left by an earlier
record. -/
def one_data_line : Main :=
  receive_start previous_record (feed reset_state (bytes_of ("S1071000DEADBEEFB0\n")))

/-- The state of `main` at the entry of the receive loop once the line `S1071000DEADBEEFB1`
(checksum `B1` instead of `B0`) and its line feed have been received from reset. -/
def one_bad_line : Main :=
  receive_start previous_record (feed reset_state (bytes_of ("S1071000DEADBEEFB1\n")))

/-- The file-scope variables once the data line `S1137AF0` followed by thirteen `0A` pairs
and its checksum `00`, then the end line `S9030000FC`, each followed by a line feed, have been
received from reset. -/
def two_lines : Shared :=
  feed reset_state
    (bytes_of ("S1137AF00A0A0A0A0A0A0A0A0A0A0A0A0A00\nS9030000FC\n"))

/-- The file-scope variables once four lines `1`, `2`, `3`, `4`, each followed by a line
feed, have been received from reset and none consumed. -/
def four_lines : Shared :=
  feed reset_state (bytes_of ("1\n2\n3\n4\n"))

/-- Group `k` of a record structure: `data1` for 0, `data2` for 1, `data3` for 2, `data4`
otherwise. -/
def data_group (r : Record) : Nat → List Nat
  | 0 => r.data1
  | 1 => r.data2
  | 2 => r.data3
  | _ => r.data4

/-- The three calls around one flash write. -/
def word_events (address : Nat) (data : List Nat) : List Event :=
  [Event.disable_irq, Event.Program_LongWord_8B address data, Event.enable_irq]

/-- The flash writes of a trace: address and four bytes of each `Program_LongWord_8B` call, in
order. -/
def program_words : List Event → List (Nat × List Nat)
  | [] => []
  | Event.Program_LongWord_8B address data :: rest => (address, data) :: program_words rest
  | _ :: rest => program_words rest

/-! ## QUEUE.c: `pop_queue` -/

/-- Body of the loop `for (i = 1; i < NUMBER_OF_QUEUES; i++)` of `pop_queue` for counter `i`. -/
def pop_queue_body (queue : Nat → Queue) (i : Nat) : Nat → Queue :=
  if (queue i).state = 1 then
    let queue1 := Function.update queue (i - 1) { queue (i - 1) with state := (queue i).state }
    Function.update queue1 i { queue1 i with state := 0 }
  else queue

/-- Function `pop_queue`. -/
def pop_queue (queue : Nat → Queue) : Nat → Queue :=
  if (queue 0).state = 1 then
    (List.range' 1 (NUMBER_OF_QUEUES - 1)).foldl pop_queue_body
      (Function.update queue 0 { queue 0 with state := 0 })
  else queue

/-- Number of the four slots whose flag is full. -/
def full_count (queue : Nat → Queue) : Nat :=
  ((List.range NUMBER_OF_QUEUES).filter (fun i => (queue i).state = 1)).length

/-- A queue with the four given flags and empty buffers. -/
def queue_of_flags (f0 f1 f2 f3 : Nat) : Nat → Queue :=
  fun i => { record := fun _ => 0,
             state := if i = 0 then f0 else if i = 1 then f1 else if i = 2 then f2
                      else if i = 3 then f3 else 0 }

/-! ## Traces of `main` -/

/-- Interrupt state while a trace is read: enabled, just disabled, or disabled with the flash
write done. -/
inductive Irq where
  | enabled
  | disabled
  | written
deriving DecidableEq, Repr

/-- Reads a trace from interrupt state `st`: a `disable_irq` is accepted only with interrupts
enabled, the next call must be a `Program_LongWord_8B` and the one after it `enable_irq`;
every other call needs interrupts enabled; the trace must end with interrupts enabled. -/
def irq_scan : Irq → List Event → Bool
  | Irq.enabled, [] => true
  | _, [] => false
  | Irq.enabled, Event.disable_irq :: rest => irq_scan Irq.disabled rest
  | Irq.enabled, Event.enable_irq :: _ => false
  | Irq.enabled, Event.Program_LongWord_8B _ _ :: _ => false
  | Irq.enabled, _ :: rest => irq_scan Irq.enabled rest
  | Irq.disabled, Event.Program_LongWord_8B _ _ :: rest => irq_scan Irq.written rest
  | Irq.disabled, _ :: _ => false
  | Irq.written, Event.enable_irq :: rest => irq_scan Irq.enabled rest
  | Irq.written, _ :: _ => false

/-- The sector erases of a trace: address and sector count of each `Erase_Multi_Sector` call,
in order. -/
def erase_calls : List Event → List (Nat × Nat)
  | [] => []
  | Event.Erase_Multi_Sector address sectors :: rest => (address, sectors) :: erase_calls rest
  | _ :: rest => erase_calls rest

/-- The jumps to the application of a trace. -/
def jump_count : List Event → Nat
  | [] => 0
  | Event.JumpToApplication :: rest => jump_count rest + 1
  | _ :: rest => jump_count rest

/-- Calls of the receive loop outside a flash write: serial output and the two library calls. -/
def is_quiet : Event → Bool
  | Event.send_string _ => true
  | Event.send_bytes _ => true
  | Event.Check_Line_Record_call _ => true
  | Event.record_parser_call _ _ => true
  | _ => false

/-- Lists of calls made of quiet calls and of whole flash writes (disable, program, enable). -/
inductive StepEvents : List Event → Prop where
  | nil : StepEvents []
  | quiet (e : Event) (rest : List Event) :
      is_quiet e = true → StepEvents rest → StepEvents (e :: rest)
  | word (address : Nat) (data : List Nat) (rest : List Event) :
      StepEvents rest → StepEvents (word_events address data ++ rest)

/-- The state of `main` at the entry of the receive loop once the line `x9 no record` and its
line feed have been received from reset. -/
def one_end_line : Main :=
  receive_start previous_record (feed reset_state (bytes_of ("x9 no record\n")))

/-- The state of `main` at the entry of the receive loop once the header line
`S00600004844521B` and its line feed have been received from reset. -/
def one_header_line : Main :=
  receive_start previous_record (feed reset_state (bytes_of ("S00600004844521B\n")))

/-! ## BOOT.c -/

/-- What `JumpToApplication` can do to the machine: read or write a 32-bit word of memory, set
the main stack pointer, call an address. -/
inductive BootEvent where
  | read_word (address : Nat)
  | write_word (address value : Nat)
  | set_MSP (value : Nat)
  | call (address : Nat)
deriving DecidableEq, Repr

/-- The machine as `JumpToApplication` sees it: the memory image as the 32-bit word read at
each address, the main stack pointer, the address control is at, and the accesses made so
far. -/
structure Machine where
  memory : Nat → Nat
  msp : Nat
  pc : Nat
  log : List BootEvent

/-- Function `JumpToApplication`: the volatile read of the word at `APPLICATION_ADDRESS`,
`__set_MSP`, the volatile read of the word at `APPLICATION_ADDRESS + 4`, the call through the
function pointer. -/
def JumpToApplication (m : Machine) : Machine :=
  let app_msp := m.memory APPLICATION_ADDRESS % 4294967296
  let m1 := { m with log := m.log ++ [BootEvent.read_word APPLICATION_ADDRESS] }
  let m2 := { m1 with msp := app_msp, log := m1.log ++ [BootEvent.set_MSP app_msp] }
  let app_reset_handler := m2.memory (APPLICATION_ADDRESS + 4) % 4294967296
  let m3 := { m2 with log := m2.log ++ [BootEvent.read_word (APPLICATION_ADDRESS + 4)] }
  { m3 with pc := app_reset_handler, log := m3.log ++ [BootEvent.call app_reset_handler] }

/-! ## Loop counts and read logs -/

/-- Number of times the body of the summing loop of `Check_Line_Record` runs, entered with
counter `i`; `none` when the fuel runs out. -/
def sum_loop_count (loop : Nat) : Nat → Nat → Option Nat
  | 0, _ => none
  | fuel + 1, i =>
    if i ≤ loop then (sum_loop_count loop fuel ((i + 2) % 256)).map (fun c => c + 1)
    else some 0

/-- Indexes of `srec_line` read by the summing loop of `Check_Line_Record`, in order. -/
def sum_loop_reads (loop : Nat) : Nat → Nat → Option (List Nat)
  | 0, _ => none
  | fuel + 1, i =>
    if i ≤ loop then (sum_loop_reads loop fuel ((i + 2) % 256)).map (fun r => i :: (i + 1) :: r)
    else some []

/-- Indexes of `srec_line` read by `Check_Line_Record`, in order: the marker, the count pair,
the pairs of the summing loop, the checksum pair. -/
def Check_Line_Record_reads (srec_line : Nat → Nat) : Option (List Nat) :=
  if srec_line 0 = 'S'.toNat then
    let byteCount_in_record := hex_chars_to_byte (srec_line 2) (srec_line 3)
    let loop := (byteCount_in_record * 2) % 256
    (sum_loop_reads loop 128 2).map (fun r => [0, 2, 3] ++ r ++ [loop + 2, loop + 3])
  else some [0]

/-- Indexes of `record` read by the body of the parsing loop for counter value `i`. -/
def parse_body_reads (i : Nat) : List Nat :=
  if 0 = i then [8, 9, 10, 11, 12, 13, 14, 15]
  else if 4 = i then [16, 17, 18, 19, 20, 21, 22, 23]
  else if 8 = i then [24, 25, 26, 27, 28, 29, 30, 31]
  else if 12 = i then [32, 33, 34, 35, 36, 37, 38, 39]
  else []

/-- Indexes of `record` read by the parsing loop of `record_parser`, in order. -/
def parse_loop_reads (byteCount_of_data : Nat) : Nat → Nat → Option (List Nat)
  | 0, _ => none
  | fuel + 1, i =>
    if i < byteCount_of_data then
      (parse_loop_reads byteCount_of_data fuel ((i + 4) % 256)).map
        (fun r => parse_body_reads i ++ r)
    else some []

/-- Indexes of `record` read by `record_parser`, in order: the four address characters, then
the parsing loop. -/
def record_parser_reads (byteCount_in_record : Nat) : Option (List Nat) :=
  (parse_loop_reads ((byteCount_in_record * 2 + 256 - 6) % 256) 64 0).map
    (fun r => [4, 5, 6, 7] ++ r)

/-- The four bytes decoded from the eight characters of group `k` of a line (indexes
`8 + 8k` to `15 + 8k`). -/
def line_group (record : Nat → Nat) (k : Nat) : List Nat :=
  [hex_chars_to_byte (record (8 + 8 * k)) (record (9 + 8 * k)),
   hex_chars_to_byte (record (10 + 8 * k)) (record (11 + 8 * k)),
   hex_chars_to_byte (record (12 + 8 * k)) (record (13 + 8 * k)),
   hex_chars_to_byte (record (14 + 8 * k)) (record (15 + 8 * k))]

/-! ## Producer and consumer steps on the queue -/

/-- A step on the file-scope variables: the handler receiving one byte, or the receive loop
clearing the flag of slot `i`. -/
inductive Action where
  | receive (b : Nat)
  | consume (i : Nat)
deriving DecidableEq, Repr

/-- Effect of a step; the consumer step acts only on one of the four slots whose flag is
full (main.c sets `queue[i].state = 0` only under `queue[i].state == 1`). -/
def act (s : Shared) : Action → Shared
  | Action.receive b => Implement_UART_0_IRQHandler 1 b s
  | Action.consume i =>
    if i < NUMBER_OF_QUEUES ∧ (s.queue i).state = 1 then clear_state s i else s

/-- The state after a list of steps. -/
def play (s : Shared) (l : List Action) : Shared := l.foldl act s

/-- Every line feed received along the steps finds an empty slot after publishing:
`find_queue_empty` does not return 255 then. -/
def room_left (s : Shared) : List Action → Bool
  | [] => true
  | Action.receive b :: rest =>
    (if b % 256 = '\n'.toNat then decide ((act s (Action.receive b)).index_empty ≠ 255) else true)
      && room_left (act s (Action.receive b)) rest
  | Action.consume i :: rest => room_left (act s (Action.consume i)) rest

/-- The state of `main` at the entry of the receive loop once the line `S182007D` and its
line feed have been received from reset. -/
def hang_line : Main :=
  receive_start previous_record (feed reset_state (bytes_of ("S182007D\n")))


/-! ## Facts about the hex decoders -/

theorem hex_lookup_lt (c : Nat) : hex_lookup c < 16 := by
  unfold hex_lookup
  split <;> omega

theorem shl_or_eq (a b : Nat) (hb : b < 16) : (a <<< 4) ||| b = 16 * a + b := by
  rw [Nat.shiftLeft_eq, Nat.mul_comm a (2 ^ 4),
    ← Nat.mul_add_lt_is_or (by omega : b < 2 ^ 4) a]

theorem hex_chars_to_byte_eq (high low : Nat) :
    hex_chars_to_byte high low = 16 * hex_lookup (high % 256) + hex_lookup (low % 256) := by
  have h1 := hex_lookup_lt (high % 256)
  have h2 := hex_lookup_lt (low % 256)
  unfold hex_chars_to_byte
  rw [shl_or_eq _ _ h2]
  omega

theorem hex_chars_to_byte_lt (high low : Nat) : hex_chars_to_byte high low < 256 := by
  have h1 := hex_lookup_lt (high % 256)
  have h2 := hex_lookup_lt (low % 256)
  rw [hex_chars_to_byte_eq]
  omega

/-! ## The summing loop of `Check_Line_Record` -/

theorem pair_sum_zero (srec_line : Nat → Nat) (k : Nat) : pair_sum srec_line k 0 = 0 := by
  simp [pair_sum]

theorem pair_sum_succ (srec_line : Nat → Nat) (k m : Nat) :
    pair_sum srec_line k (m + 1) =
      hex_chars_to_byte (srec_line (2 * k + 2)) (srec_line (2 * k + 3))
        + pair_sum srec_line (k + 1) m := by
  unfold pair_sum
  rw [List.range_succ_eq_map, List.map_cons, List.sum_cons, List.map_map]
  have e : ∀ j, k + 1 + j = k + (j + 1) := by intro j; omega
  simp only [Function.comp_def, Nat.succ_eq_add_one, e, Nat.add_zero]

theorem pair_sum_congr (l1 l2 : Nat → Nat) (k m : Nat)
    (h : ∀ i, 2 * k + 2 ≤ i → i < 2 * (k + m) + 2 → l1 i = l2 i) :
    pair_sum l1 k m = pair_sum l2 k m := by
  unfold pair_sum
  congr 1
  apply List.map_congr_left
  intro j hj
  have hj2 := List.mem_range.mp hj
  rw [h (2 * (k + j) + 2) (by omega) (by omega), h (2 * (k + j) + 3) (by omega) (by omega)]

/-- With `m` iterations left before the bound `2 * (k + m)` (at most 252) is passed and more
than `m` units of fuel, the loop ends and has added the `m` remaining bytes modulo 256. -/
theorem sum_loop_spec (srec_line : Nat → Nat) :
    ∀ (m k fuel sum : Nat), k + m ≤ 126 → m < fuel → sum < 256 →
      sum_loop srec_line (2 * (k + m)) fuel (2 * k + 2) sum
        = some ((sum + pair_sum srec_line k m) % 256) := by
  intro m
  induction m with
  | zero =>
    intro k fuel sum _ hf hs
    obtain ⟨f, rfl⟩ : ∃ f, fuel = f + 1 := ⟨fuel - 1, by omega⟩
    have hlt : ¬ (2 * k + 2 ≤ 2 * k) := by omega
    simp only [sum_loop, Nat.add_zero, hlt, if_false, pair_sum_zero]
    rw [Nat.mod_eq_of_lt hs]
  | succ m ih =>
    intro k fuel sum hk hf hs
    obtain ⟨f, rfl⟩ : ∃ f, fuel = f + 1 := ⟨fuel - 1, by omega⟩
    have hle : 2 * k + 2 ≤ 2 * (k + (m + 1)) := by omega
    have hi : (2 * k + 2 + 2) % 256 = 2 * (k + 1) + 2 := by omega
    have hb : 2 * (k + (m + 1)) = 2 * (k + 1 + m) := by omega
    have h3 : 2 * k + 2 + 1 = 2 * k + 3 := by omega
    simp only [sum_loop, hle, if_true, hi, h3]
    rw [hb, ih (k + 1) f _ (by omega) (by omega) (Nat.mod_lt _ (by norm_num)), pair_sum_succ]
    congr 1
    omega

/-- When the 8-bit bound is 254 the loop never ends: the even 8-bit counter wraps from 254 to 0
and stays at most 254. -/
theorem sum_loop_diverges (srec_line : Nat → Nat) :
    ∀ (fuel i sum : Nat), i < 256 → i % 2 = 0 → sum_loop srec_line 254 fuel i sum = none := by
  intro fuel
  induction fuel with
  | zero => intro i sum _ _; rfl
  | succ f ih =>
    intro i sum hi he
    have hle : i ≤ 254 := by omega
    simp only [sum_loop, hle, if_true]
    exact ih _ _ (Nat.mod_lt _ (by norm_num)) (by omega)

/-- Running `Check_Line_Record` on more than 128 units of fuel changes nothing: the fuel of
`Check_Line_Record` is used up only when the C loop does not end. -/
theorem Check_Line_Record_fuel_stable (srec_line : Nat → Nat) (fuel : Nat) (hf : 128 ≤ fuel) :
    Check_Line_Record_fuel fuel srec_line = Check_Line_Record srec_line := by
  unfold Check_Line_Record Check_Line_Record_fuel
  by_cases hS : srec_line 0 = 'S'.toNat
  · rw [if_pos hS, if_pos hS]
    dsimp only
    have hb := hex_chars_to_byte_lt (srec_line 2) (srec_line 3)
    have hl : (hex_chars_to_byte (srec_line 2) (srec_line 3) * 2) % 256 ≤ 252 ∨
        (hex_chars_to_byte (srec_line 2) (srec_line 3) * 2) % 256 = 254 := by omega
    rcases hl with hl | hl
    · obtain ⟨n, hn⟩ : ∃ n, (hex_chars_to_byte (srec_line 2) (srec_line 3) * 2) % 256
          = 2 * (0 + n) :=
        ⟨(hex_chars_to_byte (srec_line 2) (srec_line 3) * 2) % 256 / 2, by omega⟩
      have h1 := sum_loop_spec srec_line n 0 fuel 0 (by omega) (by omega) (by norm_num)
      have h2 := sum_loop_spec srec_line n 0 128 0 (by omega) (by omega) (by norm_num)
      simp only [Nat.mul_zero, Nat.zero_add] at h1 h2
      simp only [Nat.zero_add] at hn
      rw [hn, h1, h2]
    · rw [hl, sum_loop_diverges srec_line fuel 2 0 (by norm_num) (by norm_num),
        sum_loop_diverges srec_line 128 2 0 (by norm_num) (by norm_num)]
  · rw [if_neg hS, if_neg hS]

/-- General form of the checksum rule, for any fuel above the declared count. -/
theorem Check_Line_Record_fuel_spec (srec_line : Nat → Nat) (n fuel : Nat)
    (hS : srec_line 0 = 'S'.toNat)
    (hn : hex_chars_to_byte (srec_line 2) (srec_line 3) = n) (h126 : n ≤ 126) (hf : n < fuel) :
    Check_Line_Record_fuel fuel srec_line =
      some (if 255 - pair_sum srec_line 0 n % 256
              = hex_chars_to_byte (srec_line (2 * n + 2)) (srec_line (2 * n + 3))
            then n else 0) := by
  unfold Check_Line_Record_fuel
  have hloop : (n * 2) % 256 = 2 * (0 + n) := by omega
  have h1 := sum_loop_spec srec_line n 0 fuel 0 (by omega) hf (by norm_num)
  simp only [Nat.mul_zero, Nat.zero_add] at h1
  rw [if_pos hS]
  simp only [hn, hloop, Nat.zero_add, h1, Nat.mod_mod]
  split <;> rfl

/-! ## Claims on `Check_Line_Record` -/

/-- C1. For a line whose first character is `S` and whose byte-count pair (indexes 2, 3)
decodes to `n` with 1 ≤ n ≤ 126, `Check_Line_Record` returns `n` when the byte decoded from
the pair at indexes 2n+2, 2n+3 equals 255 minus the sum modulo 256 of the `n` bytes decoded
from the pairs at indexes 2..2n+1, and returns 0 otherwise. -/
theorem Check_Line_Record_checksum_rule (srec_line : Nat → Nat) (n : Nat)
    (hS : srec_line 0 = 'S'.toNat)
    (hn : hex_chars_to_byte (srec_line 2) (srec_line 3) = n) (h1 : 1 ≤ n) (h126 : n ≤ 126) :
    Check_Line_Record srec_line =
      some (if hex_chars_to_byte (srec_line (2 * n + 2)) (srec_line (2 * n + 3))
              = 255 - ((List.range n).map (fun j =>
                  hex_chars_to_byte (srec_line (2 * j + 2)) (srec_line (2 * j + 3)))).sum % 256
            then n else 0) := by
  have h := Check_Line_Record_fuel_spec srec_line n 128 hS hn h126 (by omega)
  unfold Check_Line_Record
  rw [h]
  simp only [pair_sum, Nat.zero_add, eq_comm]

/-- Witness for C1: the line `S1071000DEADBEEFB0` (n = 7). -/
theorem Check_Line_Record_checksum_rule_witness :
    Check_Line_Record (lineOf ("S1071000DEADBEEFB0")) =
      some (if hex_chars_to_byte (lineOf ("S1071000DEADBEEFB0") (2 * 7 + 2))
                (lineOf ("S1071000DEADBEEFB0") (2 * 7 + 3))
              = 255 - ((List.range 7).map (fun j =>
                  hex_chars_to_byte (lineOf ("S1071000DEADBEEFB0") (2 * j + 2))
                    (lineOf ("S1071000DEADBEEFB0") (2 * j + 3)))).sum % 256
            then 7 else 0) :=
  Check_Line_Record_checksum_rule (lineOf ("S1071000DEADBEEFB0")) 7
    (by decide) (by decide) (by decide) (by decide)

/-- C3. For a line whose first character is not `S`, `Check_Line_Record` returns 0 whatever the
other characters are. -/
theorem Check_Line_Record_no_marker (srec_line : Nat → Nat) (hS : srec_line 0 ≠ 'S'.toNat) :
    Check_Line_Record srec_line = some 0 := by
  unfold Check_Line_Record Check_Line_Record_fuel
  rw [if_neg hS]

/-- Witness for C3: the line `X1071000DEADBEEFB0`, whose count and checksum would be accepted
behind an `S`. -/
theorem Check_Line_Record_no_marker_witness :
    lineOf ("X1071000DEADBEEFB0") 0 ≠ 'S'.toNat ∧
      Check_Line_Record (lineOf ("X1071000DEADBEEFB0")) = some 0 :=
  ⟨by decide, Check_Line_Record_no_marker (lineOf ("X1071000DEADBEEFB0")) (by decide)⟩

/-- A line changed only at index `pos`, at or after the checksum pair, keeps its marker, count
and byte sum; `Check_Line_Record` then returns 0 as soon as the decoded checksum differs from
the complement of that sum. -/
theorem Check_Line_Record_checksum_changed (l1 l2 : Nat → Nat) (n : Nat)
    (hS : l1 0 = 'S'.toNat) (hn : hex_chars_to_byte (l1 2) (l1 3) = n)
    (h1 : 1 ≤ n) (h126 : n ≤ 126)
    (hsame : ∀ i, i < 2 * n + 2 → l2 i = l1 i)
    (hck : hex_chars_to_byte (l2 (2 * n + 2)) (l2 (2 * n + 3))
            ≠ 255 - pair_sum l1 0 n % 256) :
    Check_Line_Record l2 = some 0 := by
  have hS2 : l2 0 = 'S'.toNat := by rw [hsame 0 (by omega)]; exact hS
  have hn2 : hex_chars_to_byte (l2 2) (l2 3) = n := by
    rw [hsame 2 (by omega), hsame 3 (by omega)]; exact hn
  have hsum : pair_sum l2 0 n = pair_sum l1 0 n :=
    pair_sum_congr l2 l1 0 n (fun i _ hi => hsame i (by omega))
  have h := Check_Line_Record_fuel_spec l2 n 128 hS2 hn2 h126 (by omega)
  unfold Check_Line_Record
  rw [h, hsum, if_neg (fun e => hck e.symm)]

/-- C2 as stated fails: `S1030000FC` is a valid record (n = 3, checksum pair at indexes 8, 9);
flipping bit 5 of its checksum character `F` gives `f`, which `hex_lookup` decodes to the same
value, and `Check_Line_Record` returns 3 on the corrupted line, not 0. -/
theorem Check_Line_Record_bit_flip_undetected :
    valid_record (lineOf ("S1030000FC")) 3 ∧
      corrupt (lineOf ("S1030000FC")) (2 * 3 + 2) 5 8 = 'f'.toNat ∧
      Check_Line_Record (corrupt (lineOf ("S1030000FC")) (2 * 3 + 2) 5) = some 3 ∧
      Check_Line_Record (corrupt (lineOf ("S1030000FC")) (2 * 3 + 2) 5) ≠ some 0 := by
  decide

/-- C2 amended. For a valid S-record line (marker `S`, hex-digit fields, declared byte count
`n` with 3 ≤ n ≤ 38, correct checksum) and a line obtained from it by flipping one bit `b` of
one of the two checksum characters (indexes 2n+2 and 2n+3), `Check_Line_Record` returns 0 on
the corrupted line provided the flipped character decodes (through `hex_lookup`) to a value
different from the original character. -/
theorem Check_Line_Record_bit_flip_detected (srec_line : Nat → Nat) (n pos b : Nat)
    (hv : valid_record srec_line n) (hpos : pos = 2 * n + 2 ∨ pos = 2 * n + 3) (hb : b < 8)
    (hdec : hex_lookup (flip_bit (srec_line pos) b % 256) ≠ hex_lookup (srec_line pos % 256)) :
    Check_Line_Record (corrupt srec_line pos b) = some 0 := by
  obtain ⟨hS, _, _, hn, h3, h38, hck⟩ := hv
  have _ := hb
  apply Check_Line_Record_checksum_changed srec_line (corrupt srec_line pos b) n hS hn
    (by omega) (by omega)
  · intro i hi
    unfold corrupt
    exact Function.update_noteq (by omega) _ _
  · rw [← hck, hex_chars_to_byte_eq, hex_chars_to_byte_eq]
    have a1 := hex_lookup_lt (srec_line (2 * n + 2) % 256)
    have a2 := hex_lookup_lt (srec_line (2 * n + 3) % 256)
    have a3 := hex_lookup_lt (flip_bit (srec_line pos) b % 256)
    rcases hpos with hp | hp
    · subst hp
      have e1 : corrupt srec_line (2 * n + 2) b (2 * n + 2)
          = flip_bit (srec_line (2 * n + 2)) b := by
        unfold corrupt; exact Function.update_same _ _ _
      have e2 : corrupt srec_line (2 * n + 2) b (2 * n + 3) = srec_line (2 * n + 3) := by
        unfold corrupt; exact Function.update_noteq (by omega) _ _
      rw [e1, e2]
      omega
    · subst hp
      have e1 : corrupt srec_line (2 * n + 3) b (2 * n + 3)
          = flip_bit (srec_line (2 * n + 3)) b := by
        unfold corrupt; exact Function.update_same _ _ _
      have e2 : corrupt srec_line (2 * n + 3) b (2 * n + 2) = srec_line (2 * n + 2) := by
        unfold corrupt; exact Function.update_noteq (by omega) _ _
      rw [e1, e2]
      omega

/-- Witness for C2 amended: in `S1030000FC`, flipping bit 0 of the checksum character `C`
gives `B`, and the corrupted line is rejected. -/
theorem Check_Line_Record_bit_flip_detected_witness :
    valid_record (lineOf ("S1030000FC")) 3 ∧
      Check_Line_Record (corrupt (lineOf ("S1030000FC")) 9 0) = some 0 :=
  ⟨by decide,
   Check_Line_Record_bit_flip_detected (lineOf ("S1030000FC")) 3 9 0
     (by decide) (by decide) (by decide) (by decide)⟩

/-! ## The parsing loop of `record_parser` -/

theorem hexCharToByte_lt (c : Nat) : hexCharToByte c < 16 := by
  unfold hexCharToByte
  simp only [Char.reduceToNat]
  split
  · omega
  · split
    · omega
    · split
      · omega
      · omega

theorem shl_or (a b i : Nat) (hb : b < 2 ^ i) : (a <<< i) ||| b = 2 ^ i * a + b := by
  rw [Nat.shiftLeft_eq, Nat.mul_comm, Nat.mul_add_lt_is_or hb]

theorem nibbles_eq (a b c d : Nat) (hb : b < 16) (hc : c < 16) (hd : d < 16) :
    (a <<< 12) ||| (b <<< 8) ||| (c <<< 4) ||| d = 4096 * a + 256 * b + 16 * c + d := by
  rw [Nat.or_assoc, Nat.or_assoc, shl_or c d 4 (by omega), shl_or b _ 8 (by omega),
    shl_or a _ 12 (by omega)]
  omega

/-- From a counter at or past 16 the loop fills no group: it ends and returns the record
structure it was entered with. -/
theorem parse_loop_tail (record : Nat → Nat) (bcd : Nat) (hb : bcd ≤ 252) :
    ∀ (fuel i : Nat) (rs : Record), i % 4 = 0 → 16 ≤ i → i ≤ 252 → (252 - i) / 4 < fuel →
      parse_loop record bcd fuel i rs = some rs := by
  intro fuel
  induction fuel with
  | zero => intro i rs _ _ _ hf; omega
  | succ f ih =>
    intro i rs h4 h16 h252 hf
    unfold parse_loop
    by_cases hlt : i < bcd
    · rw [if_pos hlt]
      have hi : (i + 4) % 256 = i + 4 := by omega
      have hbody : parse_body record i rs = rs := by
        unfold parse_body
        rw [if_neg (by omega), if_neg (by omega), if_neg (by omega), if_neg (by omega)]
      rw [hi, hbody]
      exact ih (i + 4) rs (by omega) (by omega) (by omega) (by omega)
    · rw [if_neg hlt]

/-- Closed form of the parsing loop entered at 0 when it ends (`bcd` at most 252): the groups
at counter values 0, 4, 8, 12 below `bcd` are filled in turn. -/
theorem parse_loop_zero (record : Nat → Nat) (bcd fuel : Nat) (rs : Record)
    (hb : bcd ≤ 252) (hf : 64 ≤ fuel) :
    parse_loop record bcd fuel 0 rs =
      some
        ((fun r => if 12 < bcd then parse_body record 12 r else r)
          ((fun r => if 8 < bcd then parse_body record 8 r else r)
            ((fun r => if 4 < bcd then parse_body record 4 r else r)
              ((fun r => if 0 < bcd then parse_body record 0 r else r) rs)))) := by
  obtain ⟨f, rfl⟩ : ∃ f, fuel = f + 4 := ⟨fuel - 4, by omega⟩
  have tail := fun r => parse_loop_tail record bcd hb f 16 r (by norm_num) (by norm_num)
    (by norm_num) (by omega)
  by_cases h0 : 0 < bcd
  · by_cases h4 : 4 < bcd
    · by_cases h8 : 8 < bcd
      · by_cases h12 : 12 < bcd
        · simp only [parse_loop, h0, h4, h8, h12, if_true, tail]
        · simp only [parse_loop, h0, h4, h8, h12, if_true, if_false]
      · have h12 : ¬ 12 < bcd := by omega
        simp only [parse_loop, h0, h4, h8, h12, if_true, if_false]
    · have h8 : ¬ 8 < bcd := by omega
      have h12 : ¬ 12 < bcd := by omega
      simp only [parse_loop, h0, h4, h8, h12, if_true, if_false]
  · have h4 : ¬ 4 < bcd := by omega
    have h8 : ¬ 8 < bcd := by omega
    have h12 : ¬ 12 < bcd := by omega
    simp only [parse_loop, h0, h4, h8, h12, if_false]

/-- When the 8-bit data length is 254 the parsing loop never ends: the counter, a multiple of
4 below 256, stays below 254. -/
theorem parse_loop_diverges (record : Nat → Nat) :
    ∀ (fuel i : Nat) (rs : Record), i < 256 → i % 4 = 0 →
      parse_loop record 254 fuel i rs = none := by
  intro fuel
  induction fuel with
  | zero => intro i rs _ _; rfl
  | succ f ih =>
    intro i rs hi h4
    unfold parse_loop
    rw [if_pos (by omega)]
    exact ih _ _ (Nat.mod_lt _ (by norm_num)) (by omega)

/-- Running `record_parser` on more than 64 units of fuel changes nothing: the fuel of
`record_parser` is used up only when the C loop does not end. -/
theorem record_parser_fuel_stable (record : Nat → Nat) (rs : Record) (bc fuel : Nat)
    (hf : 64 ≤ fuel) :
    record_parser_fuel fuel record rs bc = recordParser record rs bc := by
  unfold recordParser record_parser_fuel
  have hl : (bc * 2 + 256 - 6) % 256 ≤ 252 ∨ (bc * 2 + 256 - 6) % 256 = 254 := by omega
  rcases hl with hl | hl
  · rw [parse_loop_zero record _ fuel _ hl hf, parse_loop_zero record _ 64 _ hl (by norm_num)]
  · simp only [hl]
    rw [parse_loop_diverges record fuel 0 _ (by norm_num) (by norm_num),
      parse_loop_diverges record 64 0 _ (by norm_num) (by norm_num)]

/-- Closed form of `record_parser` for a byte count whose 8-bit data length is at most 252. -/
theorem record_parser_closed (record : Nat → Nat) (rs : Record) (bc : Nat)
    (hb : (bc * 2 + 256 - 6) % 256 ≤ 252) :
    recordParser record rs bc =
      some
        ((fun r => if 12 < (bc * 2 + 256 - 6) % 256 then parse_body record 12 r else r)
          ((fun r => if 8 < (bc * 2 + 256 - 6) % 256 then parse_body record 8 r else r)
            ((fun r => if 4 < (bc * 2 + 256 - 6) % 256 then parse_body record 4 r else r)
              ((fun r => if 0 < (bc * 2 + 256 - 6) % 256 then parse_body record 0 r else r)
                { rs with
                  address := ((hexCharToByte (record 4) <<< 12) |||
                    (hexCharToByte (record 5) <<< 8) ||| (hexCharToByte (record 6) <<< 4) |||
                    hexCharToByte (record 7)) % 4294967296 })))) := by
  unfold recordParser record_parser_fuel
  exact parse_loop_zero record _ 64 _ hb (by norm_num)

theorem parse_body_address (record : Nat → Nat) (i : Nat) (r : Record) :
    (parse_body record i r).address = r.address := by
  unfold parse_body
  split_ifs <;> rfl

theorem parse_body_data1 (record : Nat → Nat) (i : Nat) (r : Record) (hi : 0 ≠ i) :
    (parse_body record i r).data1 = r.data1 := by
  unfold parse_body
  rw [if_neg hi]
  split_ifs <;> rfl

theorem fill_address (record : Nat → Nat) (c : Prop) [Decidable c] (i : Nat) (r : Record) :
    (if c then parse_body record i r else r).address = r.address := by
  split
  · exact parse_body_address record i r
  · rfl

theorem fill_data1 (record : Nat → Nat) (c : Prop) [Decidable c] (i : Nat) (r : Record)
    (hi : 0 ≠ i) : (if c then parse_body record i r else r).data1 = r.data1 := by
  split
  · exact parse_body_data1 record i r hi
  · rfl

/-! ## Claims on `record_parser` -/

/-- C8 fails on the code at the claim's own example: with byte count 7 (4 data bytes)
`record_parser` terminates but overwrites the second group, which lies entirely beyond the
data. On the line `S1071000DEADBEEFB0` the second group, previously `[2, 2, 2, 2]`, becomes
`[0xB0, 0, 0, 0]`: the checksum pair and the characters after the line. The loop bound is
`7 * 2 - 6 = 8`, a count of hex characters, while the counter steps by the 4 bytes of a
group. -/
theorem record_parser_overwrites_group_beyond_data :
    previous_record.data2 = [2, 2, 2, 2] ∧
      recordParser (lineOf ("S1071000DEADBEEFB0")) previous_record 7 =
        some { address := 0x1000, data1 := [0xDE, 0xAD, 0xBE, 0xEF], data2 := [0xB0, 0, 0, 0],
               data3 := [3, 3, 3, 3], data4 := [4, 4, 4, 4], byteCount_of_data := 0,
               priority := 0 } := by
  decide

/-- C9. For a byte count `bc` with 4 ≤ bc ≤ 129, `record_parser` returns, the address it
stores is `4096*h(l[4]) + 256*h(l[5]) + 16*h(l[6]) + h(l[7])` with `h = hexCharToByte`
(a value below 65536), and the first data group holds the four bytes decoded from the
character pairs at indexes 8..15. -/
theorem record_parser_address_first_group (record : Nat → Nat) (record_struct : Record)
    (bc : Nat) (h4 : 4 ≤ bc) (h129 : bc ≤ 129) :
    (recordParser record record_struct bc).map Record.address =
        some (4096 * hexCharToByte (record 4) + 256 * hexCharToByte (record 5)
                + 16 * hexCharToByte (record 6) + hexCharToByte (record 7)) ∧
      4096 * hexCharToByte (record 4) + 256 * hexCharToByte (record 5)
          + 16 * hexCharToByte (record 6) + hexCharToByte (record 7) < 65536 ∧
      (recordParser record record_struct bc).map Record.data1 =
        some [hex_chars_to_byte (record 8) (record 9), hex_chars_to_byte (record 10) (record 11),
              hex_chars_to_byte (record 12) (record 13),
              hex_chars_to_byte (record 14) (record 15)] := by
  have a4 := hexCharToByte_lt (record 4)
  have a5 := hexCharToByte_lt (record 5)
  have a6 := hexCharToByte_lt (record 6)
  have a7 := hexCharToByte_lt (record 7)
  have hb : (bc * 2 + 256 - 6) % 256 ≤ 252 := by omega
  have h0 : 0 < (bc * 2 + 256 - 6) % 256 := by omega
  rw [record_parser_closed record record_struct bc hb, nibbles_eq _ _ _ _ a5 a6 a7]
  have hmod : (4096 * hexCharToByte (record 4) + 256 * hexCharToByte (record 5)
      + 16 * hexCharToByte (record 6) + hexCharToByte (record 7)) % 4294967296
      = 4096 * hexCharToByte (record 4) + 256 * hexCharToByte (record 5)
      + 16 * hexCharToByte (record 6) + hexCharToByte (record 7) := by omega
  rw [hmod]
  refine ⟨?_, by omega, ?_⟩
  · simp only [Option.map_some', fill_address]
  · simp only [Option.map_some']
    rw [fill_data1 record _ 12 _ (by norm_num), fill_data1 record _ 8 _ (by norm_num),
      fill_data1 record _ 4 _ (by norm_num), if_pos h0]
    rfl

/-- Witness for C9: the line `S1071000DEADBEEFB0` with its byte count 7 gives address 0x1000
and first group `[0xDE, 0xAD, 0xBE, 0xEF]`. -/
theorem record_parser_address_first_group_witness :
    (recordParser (lineOf ("S1071000DEADBEEFB0")) previous_record 7).map Record.address
        = some 0x1000 ∧
      (recordParser (lineOf ("S1071000DEADBEEFB0")) previous_record 7).map Record.data1
        = some [0xDE, 0xAD, 0xBE, 0xEF] :=
  have h := record_parser_address_first_group (lineOf ("S1071000DEADBEEFB0")) previous_record 7
    (by decide) (by decide)
  ⟨h.1.trans (by decide), h.2.2.trans (by decide)⟩

/-- C10. With byte count 19 (16 data bytes) `record_parser` returns and fills the four data
groups in line order: byte `j` of group `k` is the byte decoded from the character pair at
indexes `8 + 8k + 2j` and `9 + 8k + 2j`. -/
theorem record_parser_sixteen_bytes (record : Nat → Nat) (record_struct : Record) :
    (recordParser record record_struct 19).map
        (fun r => [r.data1, r.data2, r.data3, r.data4]) =
      some [[hex_chars_to_byte (record 8) (record 9), hex_chars_to_byte (record 10) (record 11),
             hex_chars_to_byte (record 12) (record 13), hex_chars_to_byte (record 14) (record 15)],
            [hex_chars_to_byte (record 16) (record 17), hex_chars_to_byte (record 18) (record 19),
             hex_chars_to_byte (record 20) (record 21), hex_chars_to_byte (record 22) (record 23)],
            [hex_chars_to_byte (record 24) (record 25), hex_chars_to_byte (record 26) (record 27),
             hex_chars_to_byte (record 28) (record 29), hex_chars_to_byte (record 30) (record 31)],
            [hex_chars_to_byte (record 32) (record 33), hex_chars_to_byte (record 34) (record 35),
             hex_chars_to_byte (record 36) (record 37),
             hex_chars_to_byte (record 38) (record 39)]] := by
  rw [record_parser_closed record record_struct 19 (by norm_num)]
  rfl

/-! ## The receive loop -/

theorem main_step_of_not_receiving (m : Main) (h : m.mode ≠ Mode.Receiving) :
    main_step m = m := by
  unfold main_step
  split
  · next hm => exact absurd hm h
  · rfl

theorem run_of_not_receiving (n : Nat) (m : Main) (h : m.mode ≠ Mode.Receiving) :
    run n m = m := by
  induction n with
  | zero => rfl
  | succ k ih =>
    unfold run
    rw [main_step_of_not_receiving m h]
    exact ih

theorem run_add (a b : Nat) (m : Main) : run (a + b) m = run a (run b m) := by
  induction b generalizing m with
  | zero => rfl
  | succ k ih =>
    show run (a + k + 1) m = run a (run (k + 1) m)
    have e1 : run (a + k + 1) m = run (a + k) (main_step m) := rfl
    have e2 : run (k + 1) m = run k (main_step m) := rfl
    rw [e1, e2]
    exact ih (main_step m)

theorem program_words_append (a b : List Event) :
    program_words (a ++ b) = program_words a ++ program_words b := by
  induction a with
  | nil => rfl
  | cons e t ih =>
    cases e <;> simp [program_words, ih]

theorem write_loop_succ (n : Nat) (rs : Record) (tr : List Event) :
    write_loop (n + 1) rs tr = write_body (write_loop n rs tr) n := by
  unfold write_loop
  rw [List.range_succ, List.foldl_append]
  rfl

theorem write_loop_ge_four (n : Nat) (rs : Record) (tr : List Event) :
    write_loop (n + 4) rs tr = write_loop 4 rs tr := by
  induction n with
  | zero => rw [Nat.zero_add]
  | succ k ih =>
    have e : k + 1 + 4 = (k + 4) + 1 := by omega
    rw [e, write_loop_succ, ih]
    unfold write_body
    rw [if_neg (by omega), if_neg (by omega), if_neg (by omega), if_neg (by omega)]

/-- Closed form of the programming loop for a record address that three steps of 4 do not
wrap: the first `min n 4` groups are written, group `k` at `address + 4 * k`, each write
between a disable and an enable of the interrupts. -/
theorem write_loop_closed (n : Nat) (rs : Record) (tr : List Event)
    (ha : rs.address + 12 < 4294967296) :
    (write_loop n rs tr).2 =
      tr ++ (List.range (min n 4)).flatMap
        (fun k => word_events (rs.address + 4 * k) (data_group rs k)) := by
  have m1 : (rs.address + 4) % 4294967296 = rs.address + 4 := Nat.mod_eq_of_lt (by omega)
  have m2 : (rs.address + 4 + 4) % 4294967296 = rs.address + 8 := by omega
  have m3 : (rs.address + 8 + 4) % 4294967296 = rs.address + 12 := by omega
  have h4 : (write_loop 4 rs tr).2 =
      tr ++ (List.range 4).flatMap
        (fun k => word_events (rs.address + 4 * k) (data_group rs k)) := by
    simp [write_loop, List.range_succ, write_body, m1, m2, m3, word_events, data_group]
  rcases n with _ | _ | _ | _ | k
  · simp [write_loop]
  · simp [write_loop, List.range_succ, write_body, word_events, data_group]
  · simp [write_loop, List.range_succ, write_body, m1, word_events, data_group]
  · simp [write_loop, List.range_succ, write_body, m1, m2, word_events, data_group]
  · rw [write_loop_ge_four, h4]
    have e : min (k + 1 + 1 + 1 + 1) 4 = 4 := by omega
    rw [e]

theorem program_words_word_events (f : Nat → Nat) (g : Nat → List Nat) (l : List Nat) :
    program_words (l.flatMap (fun k => word_events (f k) (g k)))
      = l.map (fun k => (f k, g k)) := by
  induction l with
  | nil => rfl
  | cons a t ih =>
    rw [List.flatMap_cons, program_words_append, ih]
    rfl

theorem parse_loop_address (record : Nat → Nat) (bcd : Nat) :
    ∀ (fuel i : Nat) (rs out : Record),
      parse_loop record bcd fuel i rs = some out → out.address = rs.address := by
  intro fuel
  induction fuel with
  | zero => intro i rs out h; simp [parse_loop] at h
  | succ f ih =>
    intro i rs out h
    unfold parse_loop at h
    split at h
    · rw [ih _ _ _ h, parse_body_address]
    · injection h with h
      rw [h]

theorem record_parser_address_lt (record : Nat → Nat) (rs out : Record) (bc : Nat)
    (h : recordParser record rs bc = some out) : out.address < 65536 := by
  unfold recordParser record_parser_fuel at h
  rw [parse_loop_address record _ _ _ _ _ h]
  have a4 := hexCharToByte_lt (record 4)
  have a5 := hexCharToByte_lt (record 5)
  have a6 := hexCharToByte_lt (record 6)
  have a7 := hexCharToByte_lt (record 7)
  show ((hexCharToByte (record 4) <<< 12) ||| (hexCharToByte (record 5) <<< 8) |||
    (hexCharToByte (record 6) <<< 4) ||| hexCharToByte (record 7)) % 4294967296 < 65536
  rw [nibbles_eq _ _ _ _ a5 a6 a7]
  omega

theorem clear_state_record (s : Shared) (i k : Nat) :
    ((clear_state s i).queue k).record = (s.queue k).record := by
  unfold clear_state
  by_cases h : k = i
  · subst h; simp
  · simp [Function.update_noteq h]

theorem clear_state_state (s : Shared) (i : Nat) : ((clear_state s i).queue i).state = 0 := by
  simp [clear_state]

/-- The step of the receive loop on a full data-record slot whose line is rejected. -/
theorem main_step_invalid (m : Main) (v : Nat)
    (hmode : m.mode = Mode.Receiving)
    (hfull : (m.shared.queue m.i).state = 1)
    (htype : (m.shared.queue m.i).record 1 = '1'.toNat)
    (hcheck : Check_Line_Record (m.shared.queue m.i).record = some v)
    (hv : v < 3) :
    main_step m =
      { m with
        trace := m.trace ++ [Event.Check_Line_Record_call m.i,
          Event.send_string ("Update failed\r\n"),
          Event.send_string ("Please start over from the beginning!\r\n")]
        shared := clear_state m.shared m.i
        mode := Mode.Failed } := by
  have hv2 : ¬ (SMALLEST_BYTES_COUNT_NUMBER ≤ v) := by
    unfold SMALLEST_BYTES_COUNT_NUMBER; omega
  have hrec : slot_record m =
      { m with
        trace := m.trace ++ [Event.Check_Line_Record_call m.i,
          Event.send_string ("Update failed\r\n"),
          Event.send_string ("Please start over from the beginning!\r\n")]
        shared := clear_state m.shared m.i
        mode := Mode.Failed } := by
    unfold slot_record
    rw [if_pos htype]
    simp only [hcheck, if_neg hv2, List.append_assoc, List.singleton_append]
  have hbody : slot_body m = slot_record m := by
    unfold slot_body
    rw [if_pos hfull, hrec]
  unfold main_step
  simp only [hmode, hbody, hrec]

/-- The step of the receive loop on a full data-record slot whose line is accepted and
parsed. -/
theorem main_step_valid (m : Main) (bc : Nat) (rs : Record)
    (hmode : m.mode = Mode.Receiving)
    (hfull : (m.shared.queue m.i).state = 1)
    (htype : (m.shared.queue m.i).record 1 = '1'.toNat)
    (hcheck : Check_Line_Record (m.shared.queue m.i).record = some bc)
    (hbc : 3 ≤ bc)
    (hparse : recordParser (m.shared.queue m.i).record m.record_struct bc = some rs) :
    main_step m =
      { mode := Mode.Receiving
        i := if (m.i + 1) % 256 < NUMBER_OF_QUEUES then (m.i + 1) % 256 else 0
        record_struct := (write_loop (bc / 4) rs
          (m.trace ++ [Event.Check_Line_Record_call m.i, Event.record_parser_call m.i bc])).1
        shared := clear_state m.shared m.i
        trace := (write_loop (bc / 4) rs
          (m.trace ++ [Event.Check_Line_Record_call m.i, Event.record_parser_call m.i bc])).2
            ++ [Event.send_bytes '.'.toNat] } := by
  have hv2 : SMALLEST_BYTES_COUNT_NUMBER ≤ bc := by
    unfold SMALLEST_BYTES_COUNT_NUMBER; omega
  have hrec : slot_record m =
      { mode := Mode.Receiving
        i := m.i
        record_struct := (write_loop (bc / 4) rs
          (m.trace ++ [Event.Check_Line_Record_call m.i, Event.record_parser_call m.i bc])).1
        shared := clear_state m.shared m.i
        trace := (write_loop (bc / 4) rs
          (m.trace ++ [Event.Check_Line_Record_call m.i, Event.record_parser_call m.i bc])).2
            ++ [Event.send_bytes '.'.toNat] } := by
    unfold slot_record
    rw [if_pos htype]
    simp only [hcheck, if_pos hv2, hparse, hmode, NUMBER_OF_BYTES_WRITTEN_DOWN_AT_ONE_TIME,
      List.append_assoc, List.singleton_append]
  have hend : slot_end (slot_record m) = slot_record m := by
    rw [hrec]
    unfold slot_end
    have h9 : ¬ (((clear_state m.shared m.i).queue m.i).record 1 = '9'.toNat) := by
      rw [clear_state_record, htype]
      decide
    simp only [if_neg h9]
  have hbody : slot_body m = slot_record m := by
    unfold slot_body
    rw [if_pos hfull]
    have hm : (slot_record m).mode = Mode.Receiving := by rw [hrec]
    simp only [hm, hend]
  unfold main_step
  simp only [hmode, hbody]
  rw [hrec]

/-- The step of the receive loop on a full slot holding an end record. -/
theorem main_step_end_record (m : Main)
    (hmode : m.mode = Mode.Receiving)
    (hfull : (m.shared.queue m.i).state = 1)
    (htype : (m.shared.queue m.i).record 1 = '9'.toNat) :
    main_step m =
      { m with
        shared := clear_state m.shared m.i
        trace := m.trace ++ [Event.send_string (".done!\r\n"), Event.send_string ("  \n"),
          Event.send_string ("           +++++++++++++++++++++++++++++\n"),
          Event.send_string ("  \n"),
          Event.send_string
            (" Please press the Reset Button to run the Application. Thanks :)\r\n")]
        mode := Mode.Completed } := by
  have h1 : ¬ ((m.shared.queue m.i).record 1 = '1'.toNat) := by
    rw [htype]; decide
  have hrec : slot_record m = { m with shared := clear_state m.shared m.i } := by
    unfold slot_record
    rw [if_neg h1]
  have h9 : ((clear_state m.shared m.i).queue m.i).record 1 = '9'.toNat := by
    rw [clear_state_record, htype]
  have hbody : slot_body m =
      { m with
        shared := clear_state m.shared m.i
        trace := m.trace ++ [Event.send_string (".done!\r\n"), Event.send_string ("  \n"),
          Event.send_string ("           +++++++++++++++++++++++++++++\n"),
          Event.send_string ("  \n"),
          Event.send_string
            (" Please press the Reset Button to run the Application. Thanks :)\r\n")]
        mode := Mode.Completed } := by
    unfold slot_body
    rw [if_pos hfull, hrec]
    simp only [hmode]
    unfold slot_end
    rw [if_pos h9]
  unfold main_step
  simp only [hmode, hbody]

/-- With byte count 19 `record_parser` returns the record structure with the address and all
four groups replaced. -/
theorem record_parser_nineteen (record : Nat → Nat) (rs : Record) :
    recordParser record rs 19 =
      some { rs with
        address := ((hexCharToByte (record 4) <<< 12) ||| (hexCharToByte (record 5) <<< 8) |||
          (hexCharToByte (record 6) <<< 4) ||| hexCharToByte (record 7)) % 4294967296
        data1 := [hex_chars_to_byte (record 8) (record 9),
          hex_chars_to_byte (record 10) (record 11), hex_chars_to_byte (record 12) (record 13),
          hex_chars_to_byte (record 14) (record 15)]
        data2 := [hex_chars_to_byte (record 16) (record 17),
          hex_chars_to_byte (record 18) (record 19), hex_chars_to_byte (record 20) (record 21),
          hex_chars_to_byte (record 22) (record 23)]
        data3 := [hex_chars_to_byte (record 24) (record 25),
          hex_chars_to_byte (record 26) (record 27), hex_chars_to_byte (record 28) (record 29),
          hex_chars_to_byte (record 30) (record 31)]
        data4 := [hex_chars_to_byte (record 32) (record 33),
          hex_chars_to_byte (record 34) (record 35), hex_chars_to_byte (record 36) (record 37),
          hex_chars_to_byte (record 38) (record 39)] } := by
  rw [record_parser_closed record rs 19 (by norm_num)]
  rfl

/-! ## Claims on the receive loop and the line assembler -/

/-- C5. For a full slot whose record-type character is `1` and for which `Check_Line_Record`
returns a value below 3, the step of the receive loop issues no `Program_LongWord_8B` call
(it only calls `Check_Line_Record` and sends the two failure texts), clears the slot's flag
and enters `Failed`; from there no step changes anything: no slot is processed and no flash
write occurs. -/
theorem receive_invalid_record (m : Main) (v : Nat)
    (hmode : m.mode = Mode.Receiving)
    (hfull : (m.shared.queue m.i).state = 1)
    (htype : (m.shared.queue m.i).record 1 = '1'.toNat)
    (hcheck : Check_Line_Record (m.shared.queue m.i).record = some v)
    (hv : v < 3) :
    (main_step m).mode = Mode.Failed ∧
      (main_step m).trace =
        m.trace ++ [Event.Check_Line_Record_call m.i,
          Event.send_string ("Update failed\r\n"),
          Event.send_string ("Please start over from the beginning!\r\n")] ∧
      program_words (main_step m).trace = program_words m.trace ∧
      ((main_step m).shared.queue m.i).state = 0 ∧
      ∀ n, run n (main_step m) = main_step m := by
  have hstep := main_step_invalid m v hmode hfull htype hcheck hv
  have hm : (main_step m).mode = Mode.Failed := by rw [hstep]
  refine ⟨hm, by rw [hstep], ?_, ?_, ?_⟩
  · rw [hstep]
    show program_words (m.trace ++ _) = _
    rw [program_words_append]
    simp [program_words]
  · rw [hstep]
    exact clear_state_state m.shared m.i
  · intro n
    exact run_of_not_receiving n _ (by rw [hm]; decide)

/-- Witness for C5: the slot holding `S1071000DEADBEEFB1`, whose checksum is wrong. -/
theorem receive_invalid_record_witness :
    Check_Line_Record (one_bad_line.shared.queue one_bad_line.i).record = some 0 ∧
      (main_step one_bad_line).mode = Mode.Failed ∧
      program_words (main_step one_bad_line).trace = program_words one_bad_line.trace ∧
      ((main_step one_bad_line).shared.queue one_bad_line.i).state = 0 ∧
      run 5 (main_step one_bad_line) = main_step one_bad_line :=
  have h := receive_invalid_record one_bad_line 0
    (by decide!) (by decide!) (by decide!) (by decide!) (by decide)
  ⟨by decide!, h.1, h.2.2.1, h.2.2.2.1, h.2.2.2.2 5⟩

/-- C6. From the reset state, the handler is fed the data line `S1137AF0`, thirteen `0A`
pairs and the checksum `00`, then the end line `S9030000FC`, each followed by a line feed;
the receive loop is then run. Whatever the local record structure held and however many
steps follow the second, the calls made are: the validation and parsing of slot 0, one group
of four flash writes at 0x7AF0, 0x7AF4, 0x7AF8, 0x7AFC carrying the thirteen data bytes 0x0A
in order (the rest of the fourth word is the three zero bytes decoded after them), the
progress dot and the completion texts; the loop is in `Completed` and no further flash write
is made. -/
theorem end_to_end_two_lines (record_struct : Record) (n : Nat) :
    (run (n + 2) (receive_start record_struct two_lines)).mode = Mode.Completed ∧
      (run (n + 2) (receive_start record_struct two_lines)).trace =
        [Event.Check_Line_Record_call 0, Event.record_parser_call 0 19]
          ++ word_events 0x7AF0 [0x0A, 0x0A, 0x0A, 0x0A]
          ++ word_events 0x7AF4 [0x0A, 0x0A, 0x0A, 0x0A]
          ++ word_events 0x7AF8 [0x0A, 0x0A, 0x0A, 0x0A]
          ++ word_events 0x7AFC [0x0A, 0, 0, 0]
          ++ [Event.send_bytes '.'.toNat, Event.send_string (".done!\r\n"),
              Event.send_string ("  \n"),
              Event.send_string ("           +++++++++++++++++++++++++++++\n"),
              Event.send_string ("  \n"),
              Event.send_string
                (" Please press the Reset Button to run the Application. Thanks :)\r\n")] ∧
      program_words (run (n + 2) (receive_start record_struct two_lines)).trace =
        [(0x7AF0, [0x0A, 0x0A, 0x0A, 0x0A]), (0x7AF4, [0x0A, 0x0A, 0x0A, 0x0A]),
         (0x7AF8, [0x0A, 0x0A, 0x0A, 0x0A]), (0x7AFC, [0x0A, 0, 0, 0])] := by
  have f1 : (two_lines.queue 0).state = 1 := by decide!
  have f2 : (two_lines.queue 0).record 1 = '1'.toNat := by decide!
  have f3 : Check_Line_Record (two_lines.queue 0).record = some 19 := by decide!
  have g1 : ((clear_state two_lines 0).queue 1).state = 1 := by decide!
  have g2 : ((clear_state two_lines 0).queue 1).record 1 = '9'.toNat := by decide!
  have hparse : recordParser (two_lines.queue 0).record record_struct 19 =
      some { record_struct with
        address := 0x7AF0, data1 := [0x0A, 0x0A, 0x0A, 0x0A], data2 := [0x0A, 0x0A, 0x0A, 0x0A],
        data3 := [0x0A, 0x0A, 0x0A, 0x0A], data4 := [0x0A, 0, 0, 0] } := by
    rw [record_parser_nineteen]
    simp only [Option.some.injEq, Record.mk.injEq]
    exact ⟨by decide!, by decide!, by decide!, by decide!, by decide!, trivial, trivial⟩
  have s1 := main_step_valid (receive_start record_struct two_lines) 19 _ rfl f1 f2 f3
    (by norm_num) hparse
  have s2 := main_step_end_record (main_step (receive_start record_struct two_lines))
    (by rw [s1]) (by rw [s1]; exact g1) (by rw [s1]; exact g2)
  have hrun : run (n + 2) (receive_start record_struct two_lines)
      = main_step (main_step (receive_start record_struct two_lines)) := by
    rw [run_add]
    exact run_of_not_receiving n _ (by
      show (main_step (main_step (receive_start record_struct two_lines))).mode ≠ _
      rw [s2]
      exact (by decide : Mode.Completed ≠ Mode.Receiving))
  have htrace : (main_step (main_step (receive_start record_struct two_lines))).trace =
        [Event.Check_Line_Record_call 0, Event.record_parser_call 0 19]
          ++ word_events 0x7AF0 [0x0A, 0x0A, 0x0A, 0x0A]
          ++ word_events 0x7AF4 [0x0A, 0x0A, 0x0A, 0x0A]
          ++ word_events 0x7AF8 [0x0A, 0x0A, 0x0A, 0x0A]
          ++ word_events 0x7AFC [0x0A, 0, 0, 0]
          ++ [Event.send_bytes '.'.toNat, Event.send_string (".done!\r\n"),
              Event.send_string ("  \n"),
              Event.send_string ("           +++++++++++++++++++++++++++++\n"),
              Event.send_string ("  \n"),
              Event.send_string
                (" Please press the Reset Button to run the Application. Thanks :)\r\n")] := by
    rw [s2, s1]
    rfl
  rw [hrun]
  refine ⟨by rw [s2], htrace, ?_⟩
  rw [htrace]
  rfl

/-- C7 fails on the code: from reset, four lines `1`, `2`, `3`, `4` are received and none is
consumed. All four flags are then full and the write index is 255, the value
`find_queue_empty` returns when no slot is empty, not a slot index below 4. The bytes of a
fifth line `5` are stored through index 255, outside the four slots; slot 0 still begins
with `1`. -/
theorem write_index_past_capacity :
    (four_lines.queue 0).state = 1 ∧ (four_lines.queue 1).state = 1 ∧
      (four_lines.queue 2).state = 1 ∧ (four_lines.queue 3).state = 1 ∧
      four_lines.index_empty = 255 ∧
      ((feed four_lines (bytes_of ("5\n"))).queue 0).record 0 = '1'.toNat ∧
      ((feed four_lines (bytes_of ("5\n"))).queue 255).record 0 = '5'.toNat ∧
      (feed four_lines (bytes_of ("5\n"))).index_empty = 255 := by
  decide!


/-! ## The queue functions -/

/-- Closed form of the scan of `find_queue_empty`. -/
theorem find_queue_empty_eq (queue : Nat → Queue) :
    find_queue_empty queue =
      if (queue 0).state = 0 then 0 else if (queue 1).state = 0 then 1
      else if (queue 2).state = 0 then 2 else if (queue 3).state = 0 then 3 else 255 := by
  unfold find_queue_empty
  by_cases h0 : (queue 0).state = 0
  · simp [find_queue_empty_loop, NUMBER_OF_QUEUES, h0]
  · by_cases h1 : (queue 1).state = 0
    · simp [find_queue_empty_loop, NUMBER_OF_QUEUES, h0, h1]
    · by_cases h2 : (queue 2).state = 0
      · simp [find_queue_empty_loop, NUMBER_OF_QUEUES, h0, h1, h2]
      · by_cases h3 : (queue 3).state = 0
        · simp [find_queue_empty_loop, NUMBER_OF_QUEUES, h0, h1, h2, h3]
        · simp [find_queue_empty_loop, NUMBER_OF_QUEUES, h0, h1, h2, h3]

/-- Closed form of `initialize_state`: the flags of the four slots are cleared. -/
theorem initialize_state_eq (queue : Nat → Queue) :
    initialize_state queue = fun k => if k < 4 then { queue k with state := 0 } else queue k := by
  funext k
  have r4 : List.range 4 = [0, 1, 2, 3] := rfl
  simp only [initialize_state, NUMBER_OF_QUEUES, r4, List.foldl, Function.update]
  by_cases h3 : k = 3
  · subst h3; simp
  · by_cases h2 : k = 2
    · subst h2; simp
    · by_cases h1 : k = 1
      · subst h1; simp
      · by_cases h0 : k = 0
        · subst h0; simp
        · have hk : ¬ k < 4 := by omega
          simp [h0, h1, h2, h3, hk]

/-- C11. For every queue, `find_queue_empty` returns 255 exactly when none of the four slots
is empty; otherwise it returns the least index in 0..3 whose flag is empty (state 0). On the
all-empty queue of the reset state it returns 0, on a queue whose four flags are full it
returns 255. The function only returns an index: flags and contents are not written. -/
theorem find_queue_empty_least (queue : Nat → Queue) :
    (find_queue_empty queue = 255 ↔ ∀ i, i < 4 → (queue i).state ≠ 0) ∧
      (find_queue_empty queue ≠ 255 →
        find_queue_empty queue < 4 ∧ (queue (find_queue_empty queue)).state = 0 ∧
        ∀ j, j < find_queue_empty queue → (queue j).state ≠ 0) ∧
      find_queue_empty reset_state.queue = 0 ∧
      find_queue_empty (queue_of_flags 1 1 1 1) = 255 := by
  refine ⟨?_, ?_, by decide, by decide⟩
  · rw [find_queue_empty_eq]
    constructor
    · intro h
      by_cases h0 : (queue 0).state = 0
      · rw [if_pos h0] at h; omega
      · by_cases h1 : (queue 1).state = 0
        · rw [if_neg h0, if_pos h1] at h; omega
        · by_cases h2 : (queue 2).state = 0
          · rw [if_neg h0, if_neg h1, if_pos h2] at h; omega
          · by_cases h3 : (queue 3).state = 0
            · rw [if_neg h0, if_neg h1, if_neg h2, if_pos h3] at h; omega
            · intro i hi
              interval_cases i <;> assumption
    · intro h
      rw [if_neg (h 0 (by norm_num)), if_neg (h 1 (by norm_num)), if_neg (h 2 (by norm_num)),
        if_neg (h 3 (by norm_num))]
  · rw [find_queue_empty_eq]
    intro hne
    by_cases h0 : (queue 0).state = 0
    · rw [if_pos h0]
      exact ⟨by norm_num, h0, fun j hj => by omega⟩
    · by_cases h1 : (queue 1).state = 0
      · rw [if_neg h0, if_pos h1]
        exact ⟨by norm_num, h1, fun j hj => by interval_cases j; exact h0⟩
      · by_cases h2 : (queue 2).state = 0
        · rw [if_neg h0, if_neg h1, if_pos h2]
          exact ⟨by norm_num, h2, fun j hj => by interval_cases j <;> assumption⟩
        · by_cases h3 : (queue 3).state = 0
          · rw [if_neg h0, if_neg h1, if_neg h2, if_pos h3]
            exact ⟨by norm_num, h3, fun j hj => by interval_cases j <;> assumption⟩
          · rw [if_neg h0, if_neg h1, if_neg h2, if_neg h3] at hne
            exact absurd rfl hne

/-- C12. For every queue, also one with full slots, `initialize_state` gives a queue whose
four flags are empty (no slot is full, and `find_queue_empty` returns 0), leaves the record
buffer of every slot unchanged, and applying it twice gives the same queue as applying it
once. -/
theorem initialize_state_resets (queue : Nat → Queue) :
    (∀ i, i < 4 → (initialize_state queue i).state = 0) ∧
      full_count (initialize_state queue) = 0 ∧
      find_queue_empty (initialize_state queue) = 0 ∧
      (∀ i, (initialize_state queue i).record = (queue i).record) ∧
      initialize_state (initialize_state queue) = initialize_state queue := by
  refine ⟨?_, ?_, ?_, ?_, ?_⟩
  · intro i hi
    rw [initialize_state_eq]
    simp [hi]
  · rw [initialize_state_eq]
    have r4 : List.range 4 = [0, 1, 2, 3] := rfl
    simp [full_count, NUMBER_OF_QUEUES, r4]
  · rw [find_queue_empty_eq, initialize_state_eq]
    simp
  · intro i
    rw [initialize_state_eq]
    by_cases hi : i < 4 <;> simp [hi]
  · simp only [initialize_state_eq]
    funext k
    by_cases hk : k < 4 <;> simp [hk]

/-! ## Claims on the line assembler -/

/-- C13. When the received byte is the line feed and the write index `w` is a slot index
below 4, with byte offset `o`, the handler stores NUL at position `o` of slot `w`, sets the
flag of slot `w` to full, sets the write index to `find_queue_empty` of the resulting queue
and the offset to 0; the other characters of slot `w` and every other slot, contents and
flag, are unchanged. -/
theorem handler_line_feed (s : Shared) (hw : s.index_empty < 4) :
    ((Implement_UART_0_IRQHandler 1 '\n'.toNat s).queue s.index_empty).record s.buffer_index = 0 ∧
      ((Implement_UART_0_IRQHandler 1 '\n'.toNat s).queue s.index_empty).state = 1 ∧
      (Implement_UART_0_IRQHandler 1 '\n'.toNat s).index_empty
        = find_queue_empty (Implement_UART_0_IRQHandler 1 '\n'.toNat s).queue ∧
      (Implement_UART_0_IRQHandler 1 '\n'.toNat s).buffer_index = 0 ∧
      (∀ k, k ≠ s.buffer_index →
        ((Implement_UART_0_IRQHandler 1 '\n'.toNat s).queue s.index_empty).record k
          = (s.queue s.index_empty).record k) ∧
      (∀ j, j ≠ s.index_empty →
        (Implement_UART_0_IRQHandler 1 '\n'.toNat s).queue j = s.queue j) := by
  have _ := hw
  have hlf : '\n'.toNat % 256 = '\n'.toNat := by decide
  unfold Implement_UART_0_IRQHandler
  simp only [hlf, if_true]
  refine ⟨by simp, by simp, trivial, trivial, ?_, ?_⟩
  · intro k hk
    simp [Function.update_noteq hk]
  · intro j hj
    simp [Function.update_noteq hj]

/-- Witness for C13: the line feed received in the reset state. -/
theorem handler_line_feed_witness :
    ((Implement_UART_0_IRQHandler 1 '\n'.toNat reset_state).queue reset_state.index_empty).state
        = 1 ∧
      (Implement_UART_0_IRQHandler 1 '\n'.toNat reset_state).index_empty
        = find_queue_empty (Implement_UART_0_IRQHandler 1 '\n'.toNat reset_state).queue ∧
      (Implement_UART_0_IRQHandler 1 '\n'.toNat reset_state).buffer_index = 0 :=
  have h := handler_line_feed reset_state (by decide)
  ⟨h.2.1, h.2.2.1, h.2.2.2.1⟩

/-- C14. When the received byte `b` is not the line feed and the write index `w` is a slot
index below 4, with 8-bit byte offset `o`, the handler stores `b` at position `o` of slot `w`
and sets the offset to `o + 1`, or to 0 when `o + 1` reaches 79; for the offsets up to 78 that
is exactly when `o + 1 = 79`. No flag changes, the write index is unchanged, and no other
character of any slot changes. -/
theorem handler_data_byte (s : Shared) (b : Nat) (hb : b < 256) (hlf : b ≠ '\n'.toNat)
    (hw : s.index_empty < 4) (ho : s.buffer_index < 256) :
    ((Implement_UART_0_IRQHandler 1 b s).queue s.index_empty).record s.buffer_index = b ∧
      (Implement_UART_0_IRQHandler 1 b s).buffer_index
        = (if MAX_LINE_LENGTH_RECORD - 1 ≤ s.buffer_index + 1 then 0 else s.buffer_index + 1) ∧
      (s.buffer_index ≤ 78 → (Implement_UART_0_IRQHandler 1 b s).buffer_index
        = (if s.buffer_index + 1 = 79 then 0 else s.buffer_index + 1)) ∧
      (∀ j, ((Implement_UART_0_IRQHandler 1 b s).queue j).state = (s.queue j).state) ∧
      (Implement_UART_0_IRQHandler 1 b s).index_empty = s.index_empty ∧
      (∀ k, k ≠ s.buffer_index →
        ((Implement_UART_0_IRQHandler 1 b s).queue s.index_empty).record k
          = (s.queue s.index_empty).record k) ∧
      (∀ j, j ≠ s.index_empty → (Implement_UART_0_IRQHandler 1 b s).queue j = s.queue j) := by
  have _ := hw
  have hmod : b % 256 = b := Nat.mod_eq_of_lt hb
  have hoff : (if MAX_LINE_LENGTH_RECORD - 1 ≤ (s.buffer_index + 1) % 256 then 0
      else (s.buffer_index + 1) % 256)
      = (if MAX_LINE_LENGTH_RECORD - 1 ≤ s.buffer_index + 1 then 0 else s.buffer_index + 1) := by
    unfold MAX_LINE_LENGTH_RECORD
    split_ifs <;> omega
  unfold Implement_UART_0_IRQHandler
  simp only [hmod, if_neg hlf, if_true, hoff]
  refine ⟨by simp, trivial, ?_, ?_, trivial, ?_, ?_⟩
  · intro h78
    unfold MAX_LINE_LENGTH_RECORD
    split_ifs <;> omega
  · intro j
    by_cases hj : j = s.index_empty
    · subst hj; simp
    · simp [Function.update_noteq hj]
  · intro k hk
    simp [Function.update_noteq hk]
  · intro j hj
    simp [Function.update_noteq hj]

/-- Witness for C14: the byte `S` received in the reset state. -/
theorem handler_data_byte_witness :
    ((Implement_UART_0_IRQHandler 1 'S'.toNat reset_state).queue reset_state.index_empty).record
        reset_state.buffer_index = 'S'.toNat ∧
      (Implement_UART_0_IRQHandler 1 'S'.toNat reset_state).buffer_index
        = (if MAX_LINE_LENGTH_RECORD - 1 ≤ reset_state.buffer_index + 1 then 0
           else reset_state.buffer_index + 1) ∧
      (Implement_UART_0_IRQHandler 1 'S'.toNat reset_state).index_empty
        = reset_state.index_empty :=
  have h := handler_data_byte reset_state 'S'.toNat (by decide) (by decide) (by decide)
    (by decide)
  ⟨h.1, h.2.1, h.2.2.2.2.1⟩

/-! ## Claim on `pop_queue` -/

/-- C17. For a queue whose four flags are 0 or 1: if slot 0 is full, `pop_queue` shifts the
flags one position toward the front (new flag `i` is old flag `i + 1` for `i` = 0..2, new
flag 3 is empty), so the number of full slots decreases by exactly one; if slot 0 is empty it
changes nothing; in both cases the record buffer of every slot is unchanged. -/
theorem pop_queue_shifts_flags (queue : Nat → Queue)
    (h : ∀ i, i < 4 → (queue i).state = 0 ∨ (queue i).state = 1) :
    ((queue 0).state = 1 →
        (∀ i, i < 3 → (pop_queue queue i).state = (queue (i + 1)).state) ∧
        (pop_queue queue 3).state = 0 ∧
        full_count (pop_queue queue) + 1 = full_count queue) ∧
      ((queue 0).state = 0 → pop_queue queue = queue) ∧
      (∀ i, (pop_queue queue i).record = (queue i).record) := by
  have r3 : List.range' 1 3 = [1, 2, 3] := rfl
  have r4 : List.range 4 = [0, 1, 2, 3] := rfl
  have h1 := h 1 (by norm_num)
  have h2 := h 2 (by norm_num)
  have h3 := h 3 (by norm_num)
  refine ⟨?_, ?_, ?_⟩
  · intro h0
    rcases h1 with h1 | h1 <;> rcases h2 with h2 | h2 <;> rcases h3 with h3 | h3 <;>
      refine ⟨?_, ?_, ?_⟩ <;>
      first
        | (intro i hi
           interval_cases i <;>
             simp [pop_queue, pop_queue_body, NUMBER_OF_QUEUES, r3, Function.update, h0, h1,
               h2, h3])
        | simp [pop_queue, pop_queue_body, full_count, NUMBER_OF_QUEUES, r3, r4,
            Function.update, h0, h1, h2, h3]
  · intro h0
    unfold pop_queue
    rw [if_neg (by omega)]
  · intro i
    by_cases h0 : (queue 0).state = 1
    · rcases h1 with h1 | h1 <;> rcases h2 with h2 | h2 <;> rcases h3 with h3 | h3 <;>
        simp [pop_queue, pop_queue_body, NUMBER_OF_QUEUES, r3, Function.update, h0, h1,
          h2, h3] <;> split_ifs <;> simp_all
    · unfold pop_queue
      rw [if_neg h0]

/-- Witness for C17: the queue with flags full, empty, full, full becomes empty, full, full,
empty. -/
theorem pop_queue_shifts_flags_witness :
    (pop_queue (queue_of_flags 1 0 1 1) 0).state = 0 ∧
      (pop_queue (queue_of_flags 1 0 1 1) 1).state = 1 ∧
      (pop_queue (queue_of_flags 1 0 1 1) 2).state = 1 ∧
      (pop_queue (queue_of_flags 1 0 1 1) 3).state = 0 ∧
      full_count (pop_queue (queue_of_flags 1 0 1 1)) + 1 = full_count (queue_of_flags 1 0 1 1) :=
  have h := (pop_queue_shifts_flags (queue_of_flags 1 0 1 1)
    (by decide)).1 (by decide)
  ⟨(h.1 0 (by decide)).trans (by decide), (h.1 1 (by decide)).trans (by decide),
   (h.1 2 (by decide)).trans (by decide), h.2.1, h.2.2⟩

/-! ## Traces of the receive loop -/

theorem StepEvents.append {a b : List Event} (ha : StepEvents a) (hb : StepEvents b) :
    StepEvents (a ++ b) := by
  induction ha with
  | nil => exact hb
  | quiet e rest hq _ ih => exact StepEvents.quiet e (rest ++ b) hq ih
  | word address data rest _ ih =>
    rw [List.append_assoc]
    exact StepEvents.word address data (rest ++ b) ih

theorem irq_scan_append (a : List Event) :
    ∀ (st : Irq) (b : List Event), irq_scan st a = true →
      irq_scan st (a ++ b) = irq_scan Irq.enabled b := by
  induction a with
  | nil =>
    intro st b h
    cases st <;> simp_all [irq_scan]
  | cons e rest ih =>
    intro st b h
    cases st <;> cases e <;> simp_all [irq_scan]

theorem irq_scan_step_events {l : List Event} (h : StepEvents l) :
    irq_scan Irq.enabled l = true := by
  induction h with
  | nil => rfl
  | quiet e rest hq _ ih => cases e <;> simp_all [irq_scan, is_quiet]
  | word address data rest _ ih => simpa [word_events, irq_scan] using ih

theorem erase_calls_append (a b : List Event) :
    erase_calls (a ++ b) = erase_calls a ++ erase_calls b := by
  induction a with
  | nil => rfl
  | cons e t ih => cases e <;> simp [erase_calls, ih]

theorem jump_count_append (a b : List Event) :
    jump_count (a ++ b) = jump_count a + jump_count b := by
  induction a with
  | nil => simp [jump_count]
  | cons e t ih => cases e <;> simp [jump_count, ih] <;> omega

theorem erase_calls_step_events {l : List Event} (h : StepEvents l) : erase_calls l = [] := by
  induction h with
  | nil => rfl
  | quiet e rest hq _ ih => cases e <;> simp_all [erase_calls, is_quiet]
  | word address data rest _ ih => simpa [word_events, erase_calls] using ih

theorem jump_count_step_events {l : List Event} (h : StepEvents l) : jump_count l = 0 := by
  induction h with
  | nil => rfl
  | quiet e rest hq _ ih => cases e <;> simp_all [jump_count, is_quiet]
  | word address data rest _ ih => simpa [word_events, jump_count] using ih

theorem write_body_suffix (st : Record × List Event) (j : Nat) :
    ∃ suffix, (write_body st j).2 = st.2 ++ suffix ∧ StepEvents suffix := by
  unfold write_body
  split_ifs
  · exact ⟨_, rfl, by simpa [word_events] using StepEvents.word _ _ [] StepEvents.nil⟩
  · exact ⟨_, rfl, by simpa [word_events] using StepEvents.word _ _ [] StepEvents.nil⟩
  · exact ⟨_, rfl, by simpa [word_events] using StepEvents.word _ _ [] StepEvents.nil⟩
  · exact ⟨_, rfl, by simpa [word_events] using StepEvents.word _ _ [] StepEvents.nil⟩
  · exact ⟨[], by simp, StepEvents.nil⟩

theorem write_loop_suffix (n : Nat) (rs : Record) (tr : List Event) :
    ∃ suffix, (write_loop n rs tr).2 = tr ++ suffix ∧ StepEvents suffix := by
  induction n with
  | zero => exact ⟨[], by simp [write_loop], StepEvents.nil⟩
  | succ k ih =>
    obtain ⟨s1, h1, e1⟩ := ih
    obtain ⟨s2, h2, e2⟩ := write_body_suffix (write_loop k rs tr) k
    refine ⟨s1 ++ s2, ?_, e1.append e2⟩
    rw [write_loop_succ, h2, h1, List.append_assoc]

theorem slot_record_suffix (m : Main) :
    ∃ suffix, (slot_record m).trace = m.trace ++ suffix ∧ StepEvents suffix := by
  unfold slot_record
  split
  · split
    · exact ⟨_, rfl, StepEvents.quiet _ _ rfl StepEvents.nil⟩
    · split
      · split
        · rename_i _ _ bc _ _ _ _
          refine ⟨[Event.Check_Line_Record_call m.i, Event.record_parser_call m.i bc], ?_,
            StepEvents.quiet _ _ rfl (StepEvents.quiet _ _ rfl StepEvents.nil)⟩
          simp
        · rename_i _ _ bc _ _ _ rs _
          obtain ⟨ws, hw, ew⟩ := write_loop_suffix
            (bc / NUMBER_OF_BYTES_WRITTEN_DOWN_AT_ONE_TIME) rs
            (m.trace ++ [Event.Check_Line_Record_call m.i] ++
              [Event.record_parser_call m.i bc])
          refine ⟨[Event.Check_Line_Record_call m.i, Event.record_parser_call m.i bc]
            ++ (ws ++ [Event.send_bytes '.'.toNat]), ?_, ?_⟩
          · show (write_loop _ _ _).2 ++ _ = _
            rw [hw]
            simp
          · exact StepEvents.quiet _ _ rfl (StepEvents.quiet _ _ rfl
              (ew.append (StepEvents.quiet _ _ rfl StepEvents.nil)))
      · refine ⟨[Event.Check_Line_Record_call m.i, Event.send_string ("Update failed\r\n"),
            Event.send_string ("Please start over from the beginning!\r\n")], ?_,
          StepEvents.quiet _ _ rfl (StepEvents.quiet _ _ rfl
            (StepEvents.quiet _ _ rfl StepEvents.nil))⟩
        simp
  · exact ⟨[], by simp, StepEvents.nil⟩

theorem slot_end_suffix (m : Main) :
    ∃ suffix, (slot_end m).trace = m.trace ++ suffix ∧ StepEvents suffix := by
  unfold slot_end
  split
  · exact ⟨_, rfl, StepEvents.quiet _ _ rfl (StepEvents.quiet _ _ rfl
      (StepEvents.quiet _ _ rfl (StepEvents.quiet _ _ rfl
        (StepEvents.quiet _ _ rfl StepEvents.nil))))⟩
  · exact ⟨[], by simp, StepEvents.nil⟩

theorem slot_body_suffix (m : Main) :
    ∃ suffix, (slot_body m).trace = m.trace ++ suffix ∧ StepEvents suffix := by
  unfold slot_body
  split
  · obtain ⟨s1, h1, e1⟩ := slot_record_suffix m
    dsimp only
    split
    · obtain ⟨s2, h2, e2⟩ := slot_end_suffix (slot_record m)
      exact ⟨s1 ++ s2, by rw [h2, h1, List.append_assoc], e1.append e2⟩
    · exact ⟨s1, h1, e1⟩
  · exact ⟨[], by simp, StepEvents.nil⟩

/-- A step of `main` only appends calls to the trace: quiet calls and whole flash writes. -/
theorem main_step_suffix (m : Main) :
    ∃ suffix, (main_step m).trace = m.trace ++ suffix ∧ StepEvents suffix := by
  unfold main_step
  split
  · obtain ⟨s1, h1, e1⟩ := slot_body_suffix m
    dsimp only
    split
    · exact ⟨s1, h1, e1⟩
    · exact ⟨s1, h1, e1⟩
  · exact ⟨[], by simp, StepEvents.nil⟩

theorem run_suffix (n : Nat) :
    ∀ m : Main, ∃ suffix, (run n m).trace = m.trace ++ suffix ∧ StepEvents suffix := by
  induction n with
  | zero => intro m; exact ⟨[], by simp [run], StepEvents.nil⟩
  | succ k ih =>
    intro m
    obtain ⟨s1, h1, e1⟩ := main_step_suffix m
    obtain ⟨s2, h2, e2⟩ := ih (main_step m)
    refine ⟨s1 ++ s2, ?_, e1.append e2⟩
    show (run k (main_step m)).trace = _
    rw [h2, h1, List.append_assoc]

/-- The step of the receive loop on a full slot whose record type is neither `1` nor `9`. -/
theorem main_step_other (m : Main)
    (hmode : m.mode = Mode.Receiving)
    (hfull : (m.shared.queue m.i).state = 1)
    (h1 : (m.shared.queue m.i).record 1 ≠ '1'.toNat)
    (h9 : (m.shared.queue m.i).record 1 ≠ '9'.toNat) :
    main_step m =
      { m with
        shared := clear_state m.shared m.i
        i := if (m.i + 1) % 256 < NUMBER_OF_QUEUES then (m.i + 1) % 256 else 0 } := by
  have hrec : slot_record m = { m with shared := clear_state m.shared m.i } := by
    unfold slot_record
    rw [if_neg h1]
  have h9c : ¬ (((clear_state m.shared m.i).queue m.i).record 1 = '9'.toNat) := by
    rw [clear_state_record]; exact h9
  have hbody : slot_body m = { m with shared := clear_state m.shared m.i } := by
    unfold slot_body
    rw [if_pos hfull, hrec]
    simp only [hmode]
    unfold slot_end
    rw [if_neg h9c]
  unfold main_step
  simp only [hmode, hbody]

theorem clear_state_other (s : Shared) (i j : Nat) (h : j ≠ i) :
    (clear_state s i).queue j = s.queue j := by
  unfold clear_state
  exact Function.update_noteq h _ _

/-! ## Claims on the record types, the critical sections and the start of `main` -/

/-- C15. For a full slot whose character at index 1 is `9`, whatever its other characters, the
step of the receive loop makes no validation call and no `Program_LongWord_8B` call: it only
sends the completion texts, and enters `Completed`; from there no step changes anything: no
slot is processed and no flash write occurs. -/
theorem receive_end_record (m : Main)
    (hmode : m.mode = Mode.Receiving)
    (hfull : (m.shared.queue m.i).state = 1)
    (htype : (m.shared.queue m.i).record 1 = '9'.toNat) :
    (main_step m).mode = Mode.Completed ∧
      (main_step m).trace =
        m.trace ++ [Event.send_string (".done!\r\n"), Event.send_string ("  \n"),
          Event.send_string ("           +++++++++++++++++++++++++++++\n"),
          Event.send_string ("  \n"),
          Event.send_string
            (" Please press the Reset Button to run the Application. Thanks :)\r\n")] ∧
      program_words (main_step m).trace = program_words m.trace ∧
      ∀ n, run n (main_step m) = main_step m := by
  have hstep := main_step_end_record m hmode hfull htype
  have hm : (main_step m).mode = Mode.Completed := by rw [hstep]
  refine ⟨hm, by rw [hstep], ?_, ?_⟩
  · rw [hstep]
    show program_words (m.trace ++ _) = _
    rw [program_words_append]
    simp [program_words]
  · intro n
    exact run_of_not_receiving n _ (by rw [hm]; decide)

/-- Witness for C15: the slot holding `x9 no record`, which has no marker and no checksum. -/
theorem receive_end_record_witness :
    (main_step one_end_line).mode = Mode.Completed ∧
      program_words (main_step one_end_line).trace = program_words one_end_line.trace ∧
      run 7 (main_step one_end_line) = main_step one_end_line :=
  have h := receive_end_record one_end_line (by decide!) (by decide!) (by decide!)
  ⟨h.1, h.2.2.1, h.2.2.2 7⟩

/-- C16. For a full slot whose character at index 1 is neither `1` nor `9`, the step of the
receive loop clears that slot's flag and does nothing else: it makes no call at all (no
validation, no parsing, no flash write, no output), stays in `Receiving`, leaves the record
structure, the other slots' flags, every slot's contents and the assembler's index and offset
unchanged. -/
theorem receive_other_record (m : Main)
    (hmode : m.mode = Mode.Receiving)
    (hfull : (m.shared.queue m.i).state = 1)
    (h1 : (m.shared.queue m.i).record 1 ≠ '1'.toNat)
    (h9 : (m.shared.queue m.i).record 1 ≠ '9'.toNat) :
    (main_step m).mode = Mode.Receiving ∧
      (main_step m).trace = m.trace ∧
      (main_step m).record_struct = m.record_struct ∧
      ((main_step m).shared.queue m.i).state = 0 ∧
      (∀ j, j ≠ m.i → (main_step m).shared.queue j = m.shared.queue j) ∧
      (∀ j, ((main_step m).shared.queue j).record = (m.shared.queue j).record) ∧
      (main_step m).shared.index_empty = m.shared.index_empty ∧
      (main_step m).shared.buffer_index = m.shared.buffer_index := by
  have hstep := main_step_other m hmode hfull h1 h9
  rw [hstep]
  exact ⟨hmode, rfl, rfl, clear_state_state m.shared m.i,
    fun j hj => clear_state_other m.shared m.i j hj,
    fun j => clear_state_record m.shared m.i j, rfl, rfl⟩

/-- Witness for C16: the slot holding the header record `S00600004844521B`. -/
theorem receive_other_record_witness :
    (main_step one_header_line).mode = Mode.Receiving ∧
      (main_step one_header_line).trace = one_header_line.trace ∧
      ((main_step one_header_line).shared.queue one_header_line.i).state = 0 :=
  have h := receive_other_record one_header_line (by decide!) (by decide!) (by decide!)
    (by decide!)
  ⟨h.1, h.2.1, h.2.2.2.1⟩

/-- C18. In the trace of the receive loop after any number of steps, entered directly or
through the start of `main` with any pin value, every `Program_LongWord_8B` call comes
directly after a `disable_irq` and directly before an `enable_irq`, and no other call is made
between a `disable_irq` and the next `enable_irq`. -/
theorem receive_loop_critical_sections (n : Nat) (pin : Nat) (record_struct : Record)
    (s : Shared) :
    irq_scan Irq.enabled (run n (receive_start record_struct s)).trace = true ∧
      irq_scan Irq.enabled (run n (main_start pin record_struct s)).trace = true := by
  constructor
  · obtain ⟨suffix, h, e⟩ := run_suffix n (receive_start record_struct s)
    rw [h]
    exact irq_scan_step_events e
  · obtain ⟨suffix, h, e⟩ := run_suffix n (main_start pin record_struct s)
    rw [h, irq_scan_append _ _ _ (by unfold main_start; split <;> rfl)]
    exact irq_scan_step_events e

/-- C19. The trigger pin alone decides the mode. If it reads 0, `main` erases 50 sectors from
0x0000A000 once, before the receive loop is entered with the four flags empty and no flash
write made; every call made later is appended after that erase and is neither an erase nor a
jump, so the erase precedes every `Program_LongWord_8B` call. If the pin reads anything else,
`main` calls `JumpToApplication` and nothing else, whatever number of steps follows: no erase
and no flash write. -/
theorem main_start_trigger (pin : Nat) (record_struct : Record) (s : Shared) (n : Nat) :
    (pin = 0 →
        (main_start pin record_struct s).mode = Mode.Receiving ∧
        erase_calls (main_start pin record_struct s).trace = [(0x0000A000, 50)] ∧
        program_words (main_start pin record_struct s).trace = [] ∧
        (∀ k, k < 4 → ((main_start pin record_struct s).shared.queue k).state = 0) ∧
        (∃ rest, (run n (main_start pin record_struct s)).trace
            = (main_start pin record_struct s).trace ++ rest ∧
          erase_calls rest = [] ∧ jump_count rest = 0) ∧
        erase_calls (run n (main_start pin record_struct s)).trace = [(0x0000A000, 50)] ∧
        jump_count (run n (main_start pin record_struct s)).trace = 0) ∧
      (pin ≠ 0 →
        (main_start pin record_struct s).mode = Mode.Application ∧
        run n (main_start pin record_struct s) = main_start pin record_struct s ∧
        (run n (main_start pin record_struct s)).trace = [Event.JumpToApplication] ∧
        erase_calls (run n (main_start pin record_struct s)).trace = [] ∧
        program_words (run n (main_start pin record_struct s)).trace = []) := by
  constructor
  · intro hp
    subst hp
    obtain ⟨rest, h, e⟩ := run_suffix n (main_start 0 record_struct s)
    have he : erase_calls (main_start 0 record_struct s).trace = [(0x0000A000, 50)] := rfl
    have hj : jump_count (main_start 0 record_struct s).trace = 0 := rfl
    refine ⟨rfl, he, rfl, ?_, ⟨rest, h, erase_calls_step_events e, jump_count_step_events e⟩,
      ?_, ?_⟩
    · intro k hk
      show (initialize_state s.queue k).state = 0
      rw [initialize_state_eq]
      simp [hk]
    · rw [h, erase_calls_append, he, erase_calls_step_events e]
      rfl
    · rw [h, jump_count_append, hj, jump_count_step_events e]
  · intro hp
    have hm : (main_start pin record_struct s).mode = Mode.Application := by
      unfold main_start
      rw [if_neg hp]
    have hrun := run_of_not_receiving n (main_start pin record_struct s) (by rw [hm]; decide)
    have ht : (main_start pin record_struct s).trace = [Event.JumpToApplication] := by
      unfold main_start
      rw [if_neg hp]
    refine ⟨hm, hrun, ?_, ?_, ?_⟩
    · rw [hrun, ht]
    · rw [hrun, ht]; rfl
    · rw [hrun, ht]; rfl

/-- C20. For every memory image, `JumpToApplication` sets the stack pointer to the 32-bit word
at 0x0000A000 and transfers control to the address held in the 32-bit word at 0x0000A004; it
reads the stack-pointer word first, then sets the stack pointer, then reads the entry word,
then calls it, and leaves the memory unchanged. -/
theorem JumpToApplication_handoff (m : Machine) :
    (JumpToApplication m).msp = m.memory 0x0000A000 % 4294967296 ∧
      (JumpToApplication m).pc = m.memory 0x0000A004 % 4294967296 ∧
      (JumpToApplication m).log =
        m.log ++ [BootEvent.read_word 0x0000A000,
          BootEvent.set_MSP (m.memory 0x0000A000 % 4294967296),
          BootEvent.read_word 0x0000A004,
          BootEvent.call (m.memory 0x0000A004 % 4294967296)] ∧
      (JumpToApplication m).memory = m.memory := by
  unfold JumpToApplication APPLICATION_ADDRESS
  simp

/-! ## Claims on the hex decoder and on termination -/

/-- C21. For every character `c`, `hexCharToByte c` is `c - '0'` for `c` in `'0'..'9'`,
`c - 'A' + 10` for `c` in `'A'..'F'`, `c - 'a' + 10` for `c` in `'a'..'f'`, and 0 for every
other character; the result is always below 16, and an upper-case hex letter and its
lower-case form (32 higher) decode to the same value. -/
theorem hexCharToByte_cases (c : Nat) :
    ('0'.toNat ≤ c ∧ c ≤ '9'.toNat → hexCharToByte c = c - '0'.toNat) ∧
      ('A'.toNat ≤ c ∧ c ≤ 'F'.toNat → hexCharToByte c = c - 'A'.toNat + 10) ∧
      ('a'.toNat ≤ c ∧ c ≤ 'f'.toNat → hexCharToByte c = c - 'a'.toNat + 10) ∧
      (¬ ('0'.toNat ≤ c ∧ c ≤ '9'.toNat) → ¬ ('A'.toNat ≤ c ∧ c ≤ 'F'.toNat) →
        ¬ ('a'.toNat ≤ c ∧ c ≤ 'f'.toNat) → hexCharToByte c = 0) ∧
      hexCharToByte c < 16 ∧
      ('A'.toNat ≤ c ∧ c ≤ 'F'.toNat → hexCharToByte (c + 32) = hexCharToByte c) := by
  unfold hexCharToByte
  simp only [Char.reduceToNat]
  refine ⟨?_, ?_, ?_, ?_, ?_, ?_⟩
  · intro h
    rw [if_pos h]
    omega
  · intro h
    rw [if_neg (by omega), if_pos h]
    omega
  · intro h
    rw [if_neg (by omega), if_neg (by omega), if_pos h]
    omega
  · intro h1 h2 h3
    rw [if_neg h1, if_neg h2, if_neg h3]
  · split_ifs <;> omega
  · intro h
    rw [if_neg (by omega), if_neg (by omega), if_pos (by omega), if_neg (by omega), if_pos h]
    omega

/-- With `m` iterations left before the bound `2 * (k + m)` (at most 252) is passed, the body
of the summing loop runs exactly `m` more times. -/
theorem sum_loop_count_spec :
    ∀ (m k fuel : Nat), k + m ≤ 126 → m < fuel →
      sum_loop_count (2 * (k + m)) fuel (2 * k + 2) = some m := by
  intro m
  induction m with
  | zero =>
    intro k fuel _ hf
    obtain ⟨f, rfl⟩ : ∃ f, fuel = f + 1 := ⟨fuel - 1, by omega⟩
    have hlt : ¬ (2 * k + 2 ≤ 2 * k) := by omega
    simp only [sum_loop_count, Nat.add_zero, hlt, if_false]
  | succ m ih =>
    intro k fuel hk hf
    obtain ⟨f, rfl⟩ : ∃ f, fuel = f + 1 := ⟨fuel - 1, by omega⟩
    have hle : 2 * k + 2 ≤ 2 * (k + (m + 1)) := by omega
    have hi : (2 * k + 2 + 2) % 256 = 2 * (k + 1) + 2 := by omega
    have hb : 2 * (k + (m + 1)) = 2 * (k + 1 + m) := by omega
    simp only [sum_loop_count, hle, if_true, hi]
    rw [hb, ih (k + 1) f (by omega) (by omega)]
    rfl

theorem sum_loop_count_diverges :
    ∀ (fuel i : Nat), i < 256 → i % 2 = 0 → sum_loop_count 254 fuel i = none := by
  intro fuel
  induction fuel with
  | zero => intro i _ _; rfl
  | succ f ih =>
    intro i hi he
    have hle : i ≤ 254 := by omega
    simp only [sum_loop_count, hle, if_true]
    rw [ih _ (Nat.mod_lt _ (by norm_num)) (by omega)]
    rfl

/-- C22. `Check_Line_Record` returns for every line that does not start with `S`, and for
every line that starts with `S` and whose declared byte count `n` is neither 127 nor 255: the
body of the summing loop then runs exactly `(2n mod 256) / 2` times. For the counts 127 and
255 the 8-bit loop bound is 254 and the loop does not end, whatever the fuel. -/
theorem Check_Line_Record_termination (srec_line : Nat → Nat) (fuel : Nat) :
    (srec_line 0 ≠ 'S'.toNat → Check_Line_Record srec_line = some 0) ∧
      (srec_line 0 = 'S'.toNat →
        hex_chars_to_byte (srec_line 2) (srec_line 3) ≠ 127 →
        hex_chars_to_byte (srec_line 2) (srec_line 3) ≠ 255 →
        (Check_Line_Record srec_line).isSome = true ∧
        sum_loop_count (hex_chars_to_byte (srec_line 2) (srec_line 3) * 2 % 256) 128 2
          = some (hex_chars_to_byte (srec_line 2) (srec_line 3) * 2 % 256 / 2)) ∧
      (srec_line 0 = 'S'.toNat →
        hex_chars_to_byte (srec_line 2) (srec_line 3) = 127 ∨
          hex_chars_to_byte (srec_line 2) (srec_line 3) = 255 →
        hex_chars_to_byte (srec_line 2) (srec_line 3) * 2 % 256 = 254 ∧
        Check_Line_Record_fuel fuel srec_line = none ∧
        sum_loop_count (hex_chars_to_byte (srec_line 2) (srec_line 3) * 2 % 256) fuel 2
          = none) := by
  have hb := hex_chars_to_byte_lt (srec_line 2) (srec_line 3)
  refine ⟨?_, ?_, ?_⟩
  · intro hS
    unfold Check_Line_Record Check_Line_Record_fuel
    rw [if_neg hS]
  · intro hS h127 h255
    obtain ⟨n, hn⟩ : ∃ n, (hex_chars_to_byte (srec_line 2) (srec_line 3) * 2) % 256
        = 2 * (0 + n) :=
      ⟨(hex_chars_to_byte (srec_line 2) (srec_line 3) * 2) % 256 / 2, by omega⟩
    have hn126 : n ≤ 126 := by omega
    have h1 := sum_loop_spec srec_line n 0 128 0 (by omega) (by omega) (by norm_num)
    have h2 := sum_loop_count_spec n 0 128 (by omega) (by omega)
    simp only [Nat.mul_zero, Nat.zero_add] at h1 h2
    simp only [Nat.zero_add] at hn
    constructor
    · unfold Check_Line_Record Check_Line_Record_fuel
      rw [if_pos hS]
      dsimp only
      rw [hn, h1]
      dsimp only
      split <;> rfl
    · rw [hn, h2]
      congr 1
      omega
  · intro hS hc
    have hl : hex_chars_to_byte (srec_line 2) (srec_line 3) * 2 % 256 = 254 := by omega
    refine ⟨hl, ?_, ?_⟩
    · unfold Check_Line_Record_fuel
      rw [if_pos hS]
      dsimp only
      rw [hl, sum_loop_diverges srec_line fuel 2 0 (by norm_num) (by norm_num)]
    · rw [hl]
      exact sum_loop_count_diverges fuel 2 (by norm_num) (by norm_num)

/-- C23. `record_parser` returns for every 8-bit byte count other than 2 and 130. For 2 and
130 the 8-bit data length is 254 and the parsing loop does not end, whatever the fuel.
`Check_Line_Record` returns 130 on the line `S182007D`, and 130 is at least the threshold 3: a
full slot holding that line puts the receive loop inside `record_parser` for good, in neither
`Completed` nor `Failed`, with no flash write. -/
theorem record_parser_termination (record : Nat → Nat) (record_struct : Record)
    (bc fuel n : Nat) :
    (bc < 256 → bc ≠ 2 → bc ≠ 130 → (recordParser record record_struct bc).isSome = true) ∧
      (bc = 2 ∨ bc = 130 →
        (bc * 2 + 256 - 6) % 256 = 254 ∧
        record_parser_fuel fuel record record_struct bc = none) ∧
      Check_Line_Record (lineOf ("S182007D")) = some 130 ∧
      SMALLEST_BYTES_COUNT_NUMBER ≤ 130 ∧
      (hang_line.shared.queue hang_line.i).state = 1 ∧
      Check_Line_Record (hang_line.shared.queue hang_line.i).record = some 130 ∧
      (run (n + 1) hang_line).mode = Mode.HungInParser ∧
      program_words (run (n + 1) hang_line).trace = [] := by
  have hstep : (main_step hang_line).mode = Mode.HungInParser := by decide!
  have htrace : program_words (main_step hang_line).trace = [] := by decide!
  have hrun : run (n + 1) hang_line = main_step hang_line := by
    show run n (main_step hang_line) = _
    exact run_of_not_receiving n _ (by rw [hstep]; decide)
  refine ⟨?_, ?_, by decide!, by decide, by decide!, by decide!, by rw [hrun, hstep],
    by rw [hrun, htrace]⟩
  · intro h256 h2 h130
    rw [record_parser_closed record record_struct bc (by omega)]
    rfl
  · intro hc
    have hl : (bc * 2 + 256 - 6) % 256 = 254 := by omega
    refine ⟨hl, ?_⟩
    unfold record_parser_fuel
    simp only [hl]
    exact parse_loop_diverges record fuel 0 _ (by norm_num) (by norm_num)

/-! ## Claims on the offset and the write slot -/

theorem handler_offset_bound (rdrf b : Nat) (s : Shared) (h : s.buffer_index ≤ 78) :
    (Implement_UART_0_IRQHandler rdrf b s).buffer_index ≤ 78 := by
  unfold Implement_UART_0_IRQHandler MAX_LINE_LENGTH_RECORD
  by_cases hr : 1 = rdrf
  · rw [if_pos hr]
    dsimp only
    by_cases hb : b % 256 = '\n'.toNat
    · rw [if_pos hb]
      exact Nat.zero_le _
    · rw [if_neg hb]
      dsimp only
      split <;> omega
  · rw [if_neg hr]
    exact h

theorem feed_offset_bound (bytes : List Nat) :
    ∀ s : Shared, s.buffer_index ≤ 78 → (feed s bytes).buffer_index ≤ 78 := by
  induction bytes with
  | nil => intro s h; exact h
  | cons b rest ih =>
    intro s h
    exact ih _ (handler_offset_bound 1 b s h)

/-- C24. From a state with byte offset 0, whatever bytes the handler receives, the offset is
at most 78 after every byte (after each prefix of the sequence, and at its end); the store
made for the next byte, a data byte or the NUL terminator, is at that offset, so at an index
below the buffer length 80. -/
theorem offset_stays_in_buffer (s : Shared) (h0 : s.buffer_index = 0) (bytes : List Nat)
    (k : Nat) :
    (feed s (bytes.take k)).buffer_index ≤ 78 ∧
      (feed s (bytes.take k)).buffer_index < MAX_LINE_LENGTH_RECORD ∧
      (feed s bytes).buffer_index ≤ 78 := by
  have h1 := feed_offset_bound (bytes.take k) s (by omega)
  have h2 := feed_offset_bound bytes s (by omega)
  refine ⟨h1, ?_, h2⟩
  unfold MAX_LINE_LENGTH_RECORD
  omega

/-- Witness for C24: a hundred bytes `A` received from reset, looked at after ninety. -/
theorem offset_stays_in_buffer_witness :
    (feed reset_state ((List.replicate 100 'A'.toNat).take 90)).buffer_index ≤ 78 ∧
      (feed reset_state ((List.replicate 100 'A'.toNat).take 90)).buffer_index
        < MAX_LINE_LENGTH_RECORD ∧
      (feed reset_state (List.replicate 100 'A'.toNat)).buffer_index ≤ 78 :=
  offset_stays_in_buffer reset_state rfl (List.replicate 100 'A'.toNat) 90

theorem find_queue_empty_found (queue : Nat → Queue) (h : find_queue_empty queue ≠ 255) :
    find_queue_empty queue < 4 ∧ (queue (find_queue_empty queue)).state = 0 := by
  rw [find_queue_empty_eq] at h ⊢
  by_cases h0 : (queue 0).state = 0
  · rw [if_pos h0]
    exact ⟨by norm_num, h0⟩
  · by_cases h1 : (queue 1).state = 0
    · rw [if_neg h0, if_pos h1]
      exact ⟨by norm_num, h1⟩
    · by_cases h2 : (queue 2).state = 0
      · rw [if_neg h0, if_neg h1, if_pos h2]
        exact ⟨by norm_num, h2⟩
      · by_cases h3 : (queue 3).state = 0
        · rw [if_neg h0, if_neg h1, if_neg h2, if_pos h3]
          exact ⟨by norm_num, h3⟩
        · rw [if_neg h0, if_neg h1, if_neg h2, if_neg h3] at h
          exact absurd rfl h

/-- The handler on a byte other than the line feed: index and flags are kept. -/
theorem handler_data_keeps (b : Nat) (s : Shared) (hb : b % 256 ≠ '\n'.toNat) :
    (Implement_UART_0_IRQHandler 1 b s).index_empty = s.index_empty ∧
      ∀ j, ((Implement_UART_0_IRQHandler 1 b s).queue j).state = (s.queue j).state := by
  unfold Implement_UART_0_IRQHandler
  simp only [if_true, if_neg hb]
  refine ⟨trivial, ?_⟩
  intro j
  by_cases hj : j = s.index_empty
  · subst hj; simp
  · simp [Function.update_noteq hj]

/-- The handler on the line feed: the new index is `find_queue_empty` of the new queue. -/
theorem handler_line_feed_index (b : Nat) (s : Shared) (hb : b % 256 = '\n'.toNat) :
    (Implement_UART_0_IRQHandler 1 b s).index_empty
      = find_queue_empty (Implement_UART_0_IRQHandler 1 b s).queue := by
  unfold Implement_UART_0_IRQHandler
  simp only [if_true, if_pos hb]

/-- One step keeps the write slot valid and empty, provided a line feed finds room. -/
theorem act_keeps_write_slot (s : Shared) (a : Action)
    (hinv : s.index_empty < 4 ∧ (s.queue s.index_empty).state = 0)
    (hroom : room_left s [a] = true) :
    (act s a).index_empty < 4 ∧ ((act s a).queue (act s a).index_empty).state = 0 := by
  cases a with
  | receive b =>
    by_cases hb : b % 256 = '\n'.toNat
    · have hne : (act s (Action.receive b)).index_empty ≠ 255 := by
        simpa [room_left, hb] using hroom
      have hidx := handler_line_feed_index b s hb
      show (Implement_UART_0_IRQHandler 1 b s).index_empty < 4 ∧
        ((Implement_UART_0_IRQHandler 1 b s).queue
          (Implement_UART_0_IRQHandler 1 b s).index_empty).state = 0
      have hne2 : find_queue_empty (Implement_UART_0_IRQHandler 1 b s).queue ≠ 255 := by
        rw [← hidx]; exact hne
      rw [hidx]
      exact find_queue_empty_found _ hne2
    · obtain ⟨h1, h2⟩ := handler_data_keeps b s hb
      show (Implement_UART_0_IRQHandler 1 b s).index_empty < 4 ∧
        ((Implement_UART_0_IRQHandler 1 b s).queue
          (Implement_UART_0_IRQHandler 1 b s).index_empty).state = 0
      rw [h1, h2]
      exact hinv
  | consume i =>
    show (if i < NUMBER_OF_QUEUES ∧ (s.queue i).state = 1 then clear_state s i else s).index_empty
        < 4 ∧ _
    by_cases hc : i < NUMBER_OF_QUEUES ∧ (s.queue i).state = 1
    · simp only [act, if_pos hc]
      have hi : (clear_state s i).index_empty = s.index_empty := rfl
      rw [hi]
      refine ⟨hinv.1, ?_⟩
      by_cases hj : s.index_empty = i
      · rw [hj]; exact clear_state_state s i
      · rw [clear_state_other s i _ hj]; exact hinv.2
    · simp only [act, if_neg hc]
      exact hinv

theorem room_left_cons (s : Shared) (a : Action) (rest : List Action)
    (h : room_left s (a :: rest) = true) :
    room_left s [a] = true ∧ room_left (act s a) rest = true := by
  cases a with
  | receive b =>
    simp only [room_left, Bool.and_eq_true, Bool.and_true] at h ⊢
    exact h
  | consume i =>
    simp only [room_left] at h ⊢
    exact ⟨trivial, h⟩

theorem room_left_take (l : List Action) :
    ∀ (s : Shared) (k : Nat), room_left s l = true → room_left s (l.take k) = true := by
  induction l with
  | nil => intro s k h; simpa using h
  | cons a rest ih =>
    intro s k h
    cases k with
    | zero => rfl
    | succ k =>
      obtain ⟨h1, h2⟩ := room_left_cons s a rest h
      have h3 := ih (act s a) k h2
      rw [List.take_succ_cons]
      cases a with
      | receive b =>
        simp only [room_left, Bool.and_eq_true, Bool.and_true] at h1 ⊢
        exact ⟨h1, h3⟩
      | consume i =>
        simp only [room_left]
        exact h3

theorem play_keeps_write_slot (l : List Action) :
    ∀ s : Shared, s.index_empty < 4 ∧ (s.queue s.index_empty).state = 0 →
      room_left s l = true →
      (play s l).index_empty < 4 ∧ ((play s l).queue (play s l).index_empty).state = 0 := by
  induction l with
  | nil => intro s h _; exact h
  | cons a rest ih =>
    intro s h hroom
    obtain ⟨h1, h2⟩ := room_left_cons s a rest hroom
    exact ih (act s a) (act_keeps_write_slot s a h h1) h2

/-- C25. From write index 0, offset 0 and four empty flags, along any sequence of handler
steps and of consumer steps clearing the flag of a full slot in which every line feed finds an
empty slot after publishing: after every prefix of the sequence, and at its end, the write
index is below 4 and the slot it designates has an empty flag, so the byte stored by the next
handler step goes to a slot that is not flagged full. -/
theorem write_slot_stays_empty (s : Shared) (hidx : s.index_empty = 0)
    (hoff : s.buffer_index = 0) (hflags : ∀ i, i < 4 → (s.queue i).state = 0)
    (l : List Action) (hroom : room_left s l = true) (k : Nat) :
    ((play s (l.take k)).index_empty < 4 ∧
        ((play s (l.take k)).queue (play s (l.take k)).index_empty).state = 0) ∧
      ((play s l).index_empty < 4 ∧ ((play s l).queue (play s l).index_empty).state = 0) := by
  have _ := hoff
  have hinv : s.index_empty < 4 ∧ (s.queue s.index_empty).state = 0 := by
    rw [hidx]
    exact ⟨by norm_num, hflags 0 (by norm_num)⟩
  exact ⟨play_keeps_write_slot (l.take k) s hinv (room_left_take l s k hroom),
    play_keeps_write_slot l s hinv hroom⟩

/-- Witness for C25: from reset, the line `1` is received, slot 0 is consumed, the line `2` is
received; looked at after four of the five steps. -/
theorem write_slot_stays_empty_witness :
    ((play reset_state ([Action.receive 49, Action.receive 10, Action.consume 0,
          Action.receive 50, Action.receive 10].take 4)).index_empty < 4 ∧
        ((play reset_state ([Action.receive 49, Action.receive 10, Action.consume 0,
          Action.receive 50, Action.receive 10].take 4)).queue
          (play reset_state ([Action.receive 49, Action.receive 10, Action.consume 0,
            Action.receive 50, Action.receive 10].take 4)).index_empty).state = 0) ∧
      ((play reset_state [Action.receive 49, Action.receive 10, Action.consume 0,
          Action.receive 50, Action.receive 10]).index_empty < 4 ∧
        ((play reset_state [Action.receive 49, Action.receive 10, Action.consume 0,
          Action.receive 50, Action.receive 10]).queue
          (play reset_state [Action.receive 49, Action.receive 10, Action.consume 0,
            Action.receive 50, Action.receive 10]).index_empty).state = 0) :=
  write_slot_stays_empty reset_state rfl rfl (by decide)
    [Action.receive 49, Action.receive 10, Action.consume 0, Action.receive 50,
      Action.receive 10] (by decide!) 4

theorem feed_append (s : Shared) (a b : List Nat) : feed s (a ++ b) = feed (feed s a) b := by
  unfold feed
  rw [List.foldl_append]

/-- The handler on one byte other than the line feed, at an offset up to 77. -/
theorem handler_data_store (b : Nat) (s : Shared) (hb : b < 256 ∧ b ≠ '\n'.toNat)
    (ho : s.buffer_index + 1 ≤ 78) :
    (Implement_UART_0_IRQHandler 1 b s).buffer_index = s.buffer_index + 1 ∧
      (Implement_UART_0_IRQHandler 1 b s).index_empty = s.index_empty ∧
      (∀ k, ((Implement_UART_0_IRQHandler 1 b s).queue s.index_empty).record k
        = if k = s.buffer_index then b else (s.queue s.index_empty).record k) ∧
      (∀ j, ((Implement_UART_0_IRQHandler 1 b s).queue j).state = (s.queue j).state) := by
  have hmod : b % 256 = b := Nat.mod_eq_of_lt hb.1
  have hoff : (if MAX_LINE_LENGTH_RECORD - 1 ≤ (s.buffer_index + 1) % 256 then 0
      else (s.buffer_index + 1) % 256) = s.buffer_index + 1 := by
    unfold MAX_LINE_LENGTH_RECORD
    split_ifs <;> omega
  unfold Implement_UART_0_IRQHandler
  simp only [hmod, if_neg hb.2, if_true, hoff]
  refine ⟨trivial, trivial, ?_, ?_⟩
  · intro k
    by_cases hk : k = s.buffer_index
    · subst hk; simp
    · simp [Function.update_noteq hk, hk]
  · intro j
    by_cases hj : j = s.index_empty
    · subst hj; simp
    · simp [Function.update_noteq hj]

/-- Data bytes that fit below offset 78 are stored in order from the current offset onwards in
the write slot; the index and the flags are kept. -/
theorem feed_line (line : List Nat) :
    ∀ s : Shared, (∀ b ∈ line, b < 256 ∧ b ≠ '\n'.toNat) →
      s.buffer_index + line.length ≤ 78 →
      (feed s line).buffer_index = s.buffer_index + line.length ∧
      (feed s line).index_empty = s.index_empty ∧
      (∀ k, ((feed s line).queue s.index_empty).record k
        = if s.buffer_index ≤ k ∧ k < s.buffer_index + line.length
          then line.getD (k - s.buffer_index) 0 else (s.queue s.index_empty).record k) ∧
      (∀ j, ((feed s line).queue j).state = (s.queue j).state) := by
  induction line with
  | nil =>
    intro s _ _
    refine ⟨rfl, rfl, ?_, fun j => rfl⟩
    intro k
    have : ¬ (s.buffer_index ≤ k ∧ k < s.buffer_index + ([] : List Nat).length) := by
      simp
    rw [if_neg this]
    rfl
  | cons b rest ih =>
    intro s hbytes hlen
    have hlen2 : s.buffer_index + (rest.length + 1) ≤ 78 := by simpa using hlen
    obtain ⟨a1, a2, a3, a4⟩ :=
      handler_data_store b s (hbytes b (List.mem_cons_self b rest)) (by omega)
    obtain ⟨b1, b2, b3, b4⟩ := ih (Implement_UART_0_IRQHandler 1 b s)
      (fun x hx => hbytes x (List.mem_cons_of_mem b hx)) (by rw [a1]; omega)
    have hfeed : feed s (b :: rest) = feed (Implement_UART_0_IRQHandler 1 b s) rest := rfl
    rw [hfeed]
    refine ⟨?_, ?_, ?_, ?_⟩
    · rw [b1, a1, List.length_cons]; omega
    · rw [b2, a2]
    · intro k
      rw [a2] at b3
      rw [b3 k, a1, a3 k, List.length_cons]
      by_cases hk : k = s.buffer_index
      · subst hk
        have c1 : ¬ (s.buffer_index + 1 ≤ s.buffer_index ∧
            s.buffer_index < s.buffer_index + 1 + rest.length) := by omega
        have c2 : s.buffer_index ≤ s.buffer_index ∧
            s.buffer_index < s.buffer_index + (rest.length + 1) := by omega
        rw [if_neg c1, if_pos rfl, if_pos c2, Nat.sub_self]
        rfl
      · by_cases hin : s.buffer_index + 1 ≤ k ∧ k < s.buffer_index + 1 + rest.length
        · have c2 : s.buffer_index ≤ k ∧ k < s.buffer_index + (rest.length + 1) := by omega
          rw [if_pos hin, if_pos c2]
          have e : k - s.buffer_index = (k - (s.buffer_index + 1)) + 1 := by omega
          rw [e]
          rfl
        · have c2 : ¬ (s.buffer_index ≤ k ∧ k < s.buffer_index + (rest.length + 1)) := by
            omega
          rw [if_neg hin, if_neg hk, if_neg c2]
    · intro j
      rw [b4 j, a4 j]

/-- The handler on the line feed: NUL at the offset, flag of the write slot full. -/
theorem handler_line_feed_store (s : Shared) :
    (∀ k, ((Implement_UART_0_IRQHandler 1 '\n'.toNat s).queue s.index_empty).record k
        = if k = s.buffer_index then 0 else (s.queue s.index_empty).record k) ∧
      ((Implement_UART_0_IRQHandler 1 '\n'.toNat s).queue s.index_empty).state = 1 := by
  have hlf : '\n'.toNat % 256 = '\n'.toNat := by decide
  unfold Implement_UART_0_IRQHandler
  simp only [hlf, if_true]
  refine ⟨?_, by simp⟩
  intro k
  by_cases hk : k = s.buffer_index
  · subst hk; simp
  · simp [Function.update_noteq hk, hk]

/-- The handler on a data byte at offset 78: the byte is stored and the offset returns to 0. -/
theorem handler_data_wrap (b : Nat) (s : Shared) (hb : b < 256 ∧ b ≠ '\n'.toNat)
    (ho : s.buffer_index = 78) :
    (Implement_UART_0_IRQHandler 1 b s).buffer_index = 0 ∧
      (Implement_UART_0_IRQHandler 1 b s).index_empty = s.index_empty := by
  have hmod : b % 256 = b := Nat.mod_eq_of_lt hb.1
  unfold Implement_UART_0_IRQHandler MAX_LINE_LENGTH_RECORD
  simp only [hmod, if_neg hb.2, if_true, ho]
  exact ⟨rfl, trivial⟩

/-- C26. A line of `n` bytes, none of them the line feed, is fed byte by byte and followed by
a line feed, from offset 0 and a write slot `w` below 4. If `n ≤ 78`, slot `w` afterwards
holds the `n` bytes at positions 0..n-1, NUL at position `n`, and its flag is full. If `n` is
exactly 79, the offset guard has reset the offset and the slot is published with NUL at
position 0, an empty string. -/
theorem line_is_published (s : Shared) (line : List Nat) (hw : s.index_empty < 4)
    (h0 : s.buffer_index = 0) (hbytes : ∀ b ∈ line, b < 256 ∧ b ≠ '\n'.toNat) :
    (line.length ≤ 78 →
        (∀ k, k < line.length →
          ((feed s (line ++ ['\n'.toNat])).queue s.index_empty).record k = line.getD k 0) ∧
        ((feed s (line ++ ['\n'.toNat])).queue s.index_empty).record line.length = 0 ∧
        ((feed s (line ++ ['\n'.toNat])).queue s.index_empty).state = 1) ∧
      (line.length = 79 →
        ((feed s (line ++ ['\n'.toNat])).queue s.index_empty).record 0 = 0 ∧
        ((feed s (line ++ ['\n'.toNat])).queue s.index_empty).state = 1) := by
  have _ := hw
  have hlf : ∀ t : Shared, feed t ['\n'.toNat] = Implement_UART_0_IRQHandler 1 '\n'.toNat t :=
    fun t => rfl
  constructor
  · intro hlen
    obtain ⟨b1, b2, b3, _⟩ := feed_line line s hbytes (by omega)
    obtain ⟨c1, c2⟩ := handler_line_feed_store (feed s line)
    rw [b2] at c1 c2
    rw [feed_append, hlf]
    refine ⟨?_, ?_, c2⟩
    · intro k hk
      rw [c1 k, b1, h0, if_neg (by omega), b3 k, h0, if_pos (by omega), Nat.sub_zero]
    · rw [c1 line.length, b1, h0, if_pos (by omega)]
  · intro hlen
    have hsplit : line = line.take 78 ++ line.drop 78 := (List.take_append_drop 78 line).symm
    have hdl : (line.drop 78).length = 1 := by rw [List.length_drop]; omega
    obtain ⟨b, hb⟩ : ∃ b, line.drop 78 = [b] := by
      match hd : line.drop 78, hdl with
      | [x], _ => exact ⟨x, rfl⟩
    have hbm : b ∈ line := by
      rw [hsplit, hb]; simp
    have htake : ∀ x ∈ line.take 78, x < 256 ∧ x ≠ '\n'.toNat :=
      fun x hx => hbytes x (List.mem_of_mem_take hx)
    have hl78 : (line.take 78).length = 78 := by rw [List.length_take]; omega
    obtain ⟨b1, b2, _, _⟩ := feed_line (line.take 78) s htake (by omega)
    obtain ⟨d1, d2⟩ := handler_data_wrap b (feed s (line.take 78)) (hbytes b hbm)
      (by rw [b1, h0, hl78])
    obtain ⟨c1, c2⟩ := handler_line_feed_store
      (Implement_UART_0_IRQHandler 1 b (feed s (line.take 78)))
    rw [d2, b2] at c1 c2
    have hfeed : feed s (line ++ ['\n'.toNat]) =
        Implement_UART_0_IRQHandler 1 '\n'.toNat
          (Implement_UART_0_IRQHandler 1 b (feed s (line.take 78))) := by
      conv_lhs => rw [hsplit, hb]
      rw [feed_append, feed_append]
      rfl
    rw [hfeed]
    refine ⟨?_, c2⟩
    rw [c1 0, d1, if_pos rfl]

/-- Witness for C26: the line `S9030000FC` received from reset. -/
theorem line_is_published_witness :
    ((feed reset_state (bytes_of ("S9030000FC") ++ ['\n'.toNat])).queue
        reset_state.index_empty).record (bytes_of ("S9030000FC")).length = 0 ∧
      ((feed reset_state (bytes_of ("S9030000FC") ++ ['\n'.toNat])).queue
        reset_state.index_empty).state = 1 :=
  have h := (line_is_published reset_state (bytes_of ("S9030000FC")) (by decide) rfl
    (by decide)).1 (by decide)
  ⟨h.2.1, h.2.2⟩

/-! ## Claims on the number of programmed words -/

/-- When the 8-bit data length is at most 252, `record_parser` returns, and group `k` of the
result is decoded from the line when `4 * k` is below the data length and is the old group
otherwise. -/
theorem record_parser_groups (record : Nat → Nat) (rs : Record) (bc : Nat)
    (hb : (bc * 2 + 256 - 6) % 256 ≤ 252) :
    ∃ out, recordParser record rs bc = some out ∧
      ∀ k, k < 4 → data_group out k =
        if 4 * k < (bc * 2 + 256 - 6) % 256 then line_group record k else data_group rs k := by
  rw [record_parser_closed record rs bc hb]
  refine ⟨_, rfl, ?_⟩
  intro k hk
  generalize (bc * 2 + 256 - 6) % 256 = bcd
  by_cases h0 : 0 < bcd <;> by_cases h4 : 4 < bcd <;> by_cases h8 : 8 < bcd <;>
    by_cases h12 : 12 < bcd <;>
    simp only [h0, h4, h8, h12, if_true, if_false] <;>
    interval_cases k <;>
    simp [h0, h4, h8, h12, parse_body, data_group, line_group]

/-- The flash writes of the step of the receive loop on an accepted and parsed data record. -/
theorem main_step_valid_words (m : Main) (bc : Nat) (rs : Record)
    (hmode : m.mode = Mode.Receiving)
    (hfull : (m.shared.queue m.i).state = 1)
    (htype : (m.shared.queue m.i).record 1 = '1'.toNat)
    (hcheck : Check_Line_Record (m.shared.queue m.i).record = some bc)
    (hbc : 3 ≤ bc)
    (hparse : recordParser (m.shared.queue m.i).record m.record_struct bc = some rs) :
    program_words (main_step m).trace =
      program_words m.trace
        ++ (List.range (min (bc / 4) 4)).map (fun k => (rs.address + 4 * k, data_group rs k)) := by
  have ha := record_parser_address_lt _ _ _ _ hparse
  rw [main_step_valid m bc rs hmode hfull htype hcheck hbc hparse]
  show program_words ((write_loop (bc / 4) rs _).2 ++ _) = _
  rw [write_loop_closed _ _ _ (by omega), program_words_append, program_words_append,
    program_words_append, program_words_word_events]
  simp [program_words]

/-- C27. For a full data-record slot whose line is accepted with a byte count `bc`,
3 ≤ bc ≤ 127: the number of groups the receive loop programs, `min 4 (bc / 4)`, is at most
the number of groups `record_parser` fills for that line, `min 4 (⌈(2 * bc - 6) / 4⌉)`;
`record_parser` returns, the groups below that number are decoded from the current line and
the others are left as they were; hence every word written holds bytes decoded from the
current line, whatever the record structure held before. -/
theorem programmed_groups_are_fresh (m : Main) (bc : Nat)
    (hmode : m.mode = Mode.Receiving)
    (hfull : (m.shared.queue m.i).state = 1)
    (htype : (m.shared.queue m.i).record 1 = '1'.toNat)
    (hcheck : Check_Line_Record (m.shared.queue m.i).record = some bc)
    (h3 : 3 ≤ bc) (h127 : bc ≤ 127) :
    min 4 (bc / 4) ≤ min 4 ((2 * bc - 6 + 3) / 4) ∧
      ∃ rs, recordParser (m.shared.queue m.i).record m.record_struct bc = some rs ∧
        (∀ k, k < min 4 ((2 * bc - 6 + 3) / 4) →
          data_group rs k = line_group (m.shared.queue m.i).record k) ∧
        (∀ k, min 4 ((2 * bc - 6 + 3) / 4) ≤ k → k < 4 →
          data_group rs k = data_group m.record_struct k) ∧
        program_words (main_step m).trace =
          program_words m.trace
            ++ (List.range (min 4 (bc / 4))).map
                (fun k => (rs.address + 4 * k, line_group (m.shared.queue m.i).record k)) := by
  have hbcd : (bc * 2 + 256 - 6) % 256 = 2 * bc - 6 := by omega
  have hle : min 4 (bc / 4) ≤ min 4 ((2 * bc - 6 + 3) / 4) := by omega
  obtain ⟨rs, hparse, hgroups⟩ :=
    record_parser_groups (m.shared.queue m.i).record m.record_struct bc (by omega)
  rw [hbcd] at hgroups
  refine ⟨hle, rs, hparse, ?_, ?_, ?_⟩
  · intro k hk
    rw [hgroups k (by omega), if_pos (by omega)]
  · intro k hk hk4
    rw [hgroups k hk4, if_neg (by omega)]
  · rw [main_step_valid_words m bc rs hmode hfull htype hcheck h3 hparse, Nat.min_comm]
    congr 1
    apply List.map_congr_left
    intro k hk
    have hk2 := List.mem_range.mp hk
    rw [hgroups k (by omega), if_pos (by omega)]

/-- Witness for C27: the slot holding `S1071000DEADBEEFB0` (byte count 7): one group is
programmed, two are filled. -/
theorem programmed_groups_are_fresh_witness :
    min 4 (7 / 4) ≤ min 4 ((2 * 7 - 6 + 3) / 4) ∧
      ∃ rs, recordParser (one_data_line.shared.queue one_data_line.i).record
          one_data_line.record_struct 7 = some rs ∧
        (∀ k, k < min 4 ((2 * 7 - 6 + 3) / 4) →
          data_group rs k = line_group (one_data_line.shared.queue one_data_line.i).record k) ∧
        (∀ k, min 4 ((2 * 7 - 6 + 3) / 4) ≤ k → k < 4 →
          data_group rs k = data_group one_data_line.record_struct k) ∧
        program_words (main_step one_data_line).trace =
          program_words one_data_line.trace
            ++ (List.range (min 4 (7 / 4))).map
                (fun k => (rs.address + 4 * k,
                  line_group (one_data_line.shared.queue one_data_line.i).record k)) :=
  programmed_groups_are_fresh one_data_line 7 (by decide!) (by decide!) (by decide!)
    (by decide!) (by decide) (by decide)

/-- With `m` iterations left before the bound `2 * (k + m)` is passed, the summing loop reads
exactly the indexes from `2k + 2` to `2(k + m) + 1`. -/
theorem sum_loop_reads_spec :
    ∀ (m k fuel : Nat), k + m ≤ 126 → m < fuel →
      ∃ r, sum_loop_reads (2 * (k + m)) fuel (2 * k + 2) = some r ∧
        ∀ i, i ∈ r ↔ (2 * k + 2 ≤ i ∧ i ≤ 2 * (k + m) + 1) := by
  intro m
  induction m with
  | zero =>
    intro k fuel _ hf
    obtain ⟨f, rfl⟩ : ∃ f, fuel = f + 1 := ⟨fuel - 1, by omega⟩
    have hlt : ¬ (2 * k + 2 ≤ 2 * k) := by omega
    refine ⟨[], by simp only [sum_loop_reads, Nat.add_zero, hlt, if_false], ?_⟩
    intro i
    constructor
    · intro h; cases h
    · intro h; omega
  | succ m ih =>
    intro k fuel hk hf
    obtain ⟨f, rfl⟩ : ∃ f, fuel = f + 1 := ⟨fuel - 1, by omega⟩
    have hle : 2 * k + 2 ≤ 2 * (k + (m + 1)) := by omega
    have hi : (2 * k + 2 + 2) % 256 = 2 * (k + 1) + 2 := by omega
    have hb : 2 * (k + (m + 1)) = 2 * (k + 1 + m) := by omega
    obtain ⟨r, hr, hmem⟩ := ih (k + 1) f (by omega) (by omega)
    refine ⟨(2 * k + 2) :: (2 * k + 2 + 1) :: r, ?_, ?_⟩
    · simp only [sum_loop_reads, hle, if_true, hi]
      rw [hb, hr]
      rfl
    · intro i
      rw [List.mem_cons, List.mem_cons, hmem i]
      omega

/-- On a line with marker `S` and declared count `n` up to 126, the result of
`Check_Line_Record` depends only on the characters at index 0 and at indexes 2..2n+3. -/
theorem Check_Line_Record_depends (l1 l2 : Nat → Nat) (n : Nat)
    (hS : l1 0 = 'S'.toNat) (hn : hex_chars_to_byte (l1 2) (l1 3) = n) (h126 : n ≤ 126)
    (hsame : ∀ i, i = 0 ∨ (2 ≤ i ∧ i ≤ 2 * n + 3) → l2 i = l1 i) :
    Check_Line_Record l2 = Check_Line_Record l1 := by
  have hS2 : l2 0 = 'S'.toNat := by rw [hsame 0 (Or.inl rfl)]; exact hS
  have hn2 : hex_chars_to_byte (l2 2) (l2 3) = n := by
    rw [hsame 2 (Or.inr (by omega)), hsame 3 (Or.inr (by omega))]; exact hn
  have hsum : pair_sum l2 0 n = pair_sum l1 0 n :=
    pair_sum_congr l2 l1 0 n (fun i h1 h2 => hsame i (Or.inr (by omega)))
  unfold Check_Line_Record
  rw [Check_Line_Record_fuel_spec l1 n 128 hS hn h126 (by omega),
    Check_Line_Record_fuel_spec l2 n 128 hS2 hn2 h126 (by omega), hsum,
    hsame (2 * n + 2) (Or.inr (by omega)), hsame (2 * n + 3) (Or.inr (by omega))]

theorem parse_body_reads_mem (i x : Nat) (h : x ∈ parse_body_reads i) : 8 ≤ x ∧ x ≤ 39 := by
  unfold parse_body_reads at h
  split_ifs at h <;> simp at h <;> omega

theorem parse_loop_reads_mem (bcd : Nat) :
    ∀ (fuel i : Nat) (r : List Nat), parse_loop_reads bcd fuel i = some r →
      ∀ x, x ∈ r → 8 ≤ x ∧ x ≤ 39 := by
  intro fuel
  induction fuel with
  | zero => intro i r h; simp [parse_loop_reads] at h
  | succ f ih =>
    intro i r h x hx
    unfold parse_loop_reads at h
    split at h
    · cases hrec : parse_loop_reads bcd f ((i + 4) % 256) with
      | none => rw [hrec] at h; simp at h
      | some r2 =>
        rw [hrec] at h
        simp only [Option.map_some', Option.some.injEq] at h
        rw [← h, List.mem_append] at hx
        rcases hx with hx | hx
        · exact parse_body_reads_mem i x hx
        · exact ih _ r2 hrec x hx
    · simp only [Option.some.injEq] at h
      rw [← h] at hx
      cases hx

theorem parse_body_depends (r1 r2 : Nat → Nat) (i : Nat) (rs : Record)
    (h : ∀ j, 8 ≤ j → j ≤ 39 → r1 j = r2 j) :
    parse_body r1 i rs = parse_body r2 i rs := by
  unfold parse_body
  rw [h 8 (by norm_num) (by norm_num), h 9 (by norm_num) (by norm_num),
    h 10 (by norm_num) (by norm_num), h 11 (by norm_num) (by norm_num),
    h 12 (by norm_num) (by norm_num), h 13 (by norm_num) (by norm_num),
    h 14 (by norm_num) (by norm_num), h 15 (by norm_num) (by norm_num),
    h 16 (by norm_num) (by norm_num), h 17 (by norm_num) (by norm_num),
    h 18 (by norm_num) (by norm_num), h 19 (by norm_num) (by norm_num),
    h 20 (by norm_num) (by norm_num), h 21 (by norm_num) (by norm_num),
    h 22 (by norm_num) (by norm_num), h 23 (by norm_num) (by norm_num),
    h 24 (by norm_num) (by norm_num), h 25 (by norm_num) (by norm_num),
    h 26 (by norm_num) (by norm_num), h 27 (by norm_num) (by norm_num),
    h 28 (by norm_num) (by norm_num), h 29 (by norm_num) (by norm_num),
    h 30 (by norm_num) (by norm_num), h 31 (by norm_num) (by norm_num),
    h 32 (by norm_num) (by norm_num), h 33 (by norm_num) (by norm_num),
    h 34 (by norm_num) (by norm_num), h 35 (by norm_num) (by norm_num),
    h 36 (by norm_num) (by norm_num), h 37 (by norm_num) (by norm_num),
    h 38 (by norm_num) (by norm_num), h 39 (by norm_num) (by norm_num)]

theorem parse_loop_depends (r1 r2 : Nat → Nat) (bcd : Nat)
    (h : ∀ j, 8 ≤ j → j ≤ 39 → r1 j = r2 j) :
    ∀ (fuel i : Nat) (rs : Record),
      parse_loop r1 bcd fuel i rs = parse_loop r2 bcd fuel i rs := by
  intro fuel
  induction fuel with
  | zero => intro i rs; rfl
  | succ f ih =>
    intro i rs
    unfold parse_loop
    rw [parse_body_depends r1 r2 i rs h, ih]

/-- The result of `record_parser` depends only on the characters at indexes 4..39. -/
theorem record_parser_depends (r1 r2 : Nat → Nat) (rs : Record) (bc : Nat)
    (h : ∀ j, 4 ≤ j → j ≤ 39 → r1 j = r2 j) :
    recordParser r1 rs bc = recordParser r2 rs bc := by
  unfold recordParser record_parser_fuel
  rw [h 4 (by norm_num) (by norm_num), h 5 (by norm_num) (by norm_num),
    h 6 (by norm_num) (by norm_num), h 7 (by norm_num) (by norm_num)]
  exact parse_loop_depends r1 r2 _ (fun j h1 h2 => h j (by omega) h2) 64 0 _

/-- C29. For a line starting with `S` with declared byte count `n`, 1 ≤ n ≤ 126,
`Check_Line_Record` reads exactly the character indexes 0 and 2..2n+3, and its result depends
on no other character; all its reads are below the buffer length 80 if and only if `n ≤ 38`.
For every byte count on which `record_parser` returns, every index it reads is in 4..39, and
its result depends on no other character. -/
theorem reads_stay_in_line (srec_line : Nat → Nat) (n : Nat) (bc : Nat) :
    (srec_line 0 = 'S'.toNat → hex_chars_to_byte (srec_line 2) (srec_line 3) = n →
        1 ≤ n → n ≤ 126 →
        (∃ reads, Check_Line_Record_reads srec_line = some reads ∧
          (∀ i, i ∈ reads ↔ (i = 0 ∨ (2 ≤ i ∧ i ≤ 2 * n + 3))) ∧
          ((∀ i, i ∈ reads → i < MAX_LINE_LENGTH_RECORD) ↔ n ≤ 38)) ∧
        (∀ l2 : Nat → Nat, (∀ i, i = 0 ∨ (2 ≤ i ∧ i ≤ 2 * n + 3) → l2 i = srec_line i) →
          Check_Line_Record l2 = Check_Line_Record srec_line)) ∧
      (∀ reads, record_parser_reads bc = some reads → ∀ i, i ∈ reads → 4 ≤ i ∧ i ≤ 39) ∧
      (∀ (r1 r2 : Nat → Nat) (rs : Record), (∀ j, 4 ≤ j → j ≤ 39 → r1 j = r2 j) →
        recordParser r1 rs bc = recordParser r2 rs bc) := by
  refine ⟨?_, ?_, ?_⟩
  · intro hS hn h1 h126
    refine ⟨?_, fun l2 h => Check_Line_Record_depends srec_line l2 n hS hn h126 h⟩
    obtain ⟨r, hr, hmem⟩ := sum_loop_reads_spec n 0 128 (by omega) (by omega)
    simp only [Nat.mul_zero, Nat.zero_add] at hr hmem
    have hloop : (n * 2) % 256 = 2 * n := by omega
    have hreads : Check_Line_Record_reads srec_line
        = some ([0, 2, 3] ++ r ++ [2 * n + 2, 2 * n + 3]) := by
      unfold Check_Line_Record_reads
      rw [if_pos hS]
      dsimp only
      rw [hn, hloop, hr]
      rfl
    have hall : ∀ i, i ∈ [0, 2, 3] ++ r ++ [2 * n + 2, 2 * n + 3]
        ↔ (i = 0 ∨ (2 ≤ i ∧ i ≤ 2 * n + 3)) := by
      intro i
      simp only [List.mem_append, List.mem_cons, List.mem_singleton, hmem i,
        List.not_mem_nil, or_false]
      omega
    refine ⟨_, hreads, hall, ?_⟩
    unfold MAX_LINE_LENGTH_RECORD
    constructor
    · intro h
      have := h (2 * n + 3) ((hall _).mpr (Or.inr (by omega)))
      omega
    · intro h38 i hi
      have := (hall i).mp hi
      omega
  · intro reads h i hi
    unfold record_parser_reads at h
    cases hrec : parse_loop_reads ((bc * 2 + 256 - 6) % 256) 64 0 with
    | none => rw [hrec] at h; simp at h
    | some r =>
      rw [hrec] at h
      simp only [Option.map_some', Option.some.injEq] at h
      rw [← h, List.mem_append] at hi
      rcases hi with hi | hi
      · simp at hi; omega
      · have := parse_loop_reads_mem _ 64 0 r hrec i hi
        omega
  · intro r1 r2 rs h
    exact record_parser_depends r1 r2 rs bc h

end Bootloader
